import Mathlib

set_option linter.dupNamespace false

/-!
# TlsStream (lib/base/tlsstream.cpp)

A shallow embedding of `icinga::TlsStream`: the constructor, `Handshake`,
`Read`, `Write`, `Close` and `IsEof`, as executed by one calling thread.

The TLS engine and the socket are external.  One run of an operation is
driven by a finite script of engine replies (`List Reply`): the k-th reply is
what the k-th engine call of that run returns, what `SSL_get_error` and
`ERR_peek_error` report for it, and whether the `Socket::Poll` made in
response throws.  A run that needs a reply beyond the end of its script ends
`starved`: the engine call has been made, the script does not say how it
answers.

Every run produces the list of calls it makes (`Event`), in program order,
including the acquisition and release of the two mutex members by
`boost::mutex::scoped_lock`.  A `boost::mutex` is not recursive: a thread that
constructs a `scoped_lock` on a mutex it already owns never gets past the
constructor, which the embedding reports as `blocked`.  Another thread appears
only through a mutex that it owns and never releases, because it is itself
stuck: a `scoped_lock` on that mutex does not complete either.

Sizes are `size_t` values of 64 bits; the `int` results of the engine are
integers.
-/

namespace TlsStream

/-! ## OpenSSL constants and machine integers -/

/-- Value of `SSL_ERROR_WANT_READ` in `openssl/ssl.h`. -/
def SSL_ERROR_WANT_READ : Int := 2

/-- Value of `SSL_ERROR_WANT_WRITE` in `openssl/ssl.h`. -/
def SSL_ERROR_WANT_WRITE : Int := 3

/-- Value of `SSL_ERROR_ZERO_RETURN` in `openssl/ssl.h`. -/
def SSL_ERROR_ZERO_RETURN : Int := 6

/-- Number of values of `size_t` (64-bit). -/
def SIZE_RANGE : Nat := 2 ^ 64

/-- Difference `a - b` of two `size_t` values, wrapping as unsigned arithmetic does. -/
def subSize (a b : Nat) : Nat := (a % SIZE_RANGE + (SIZE_RANGE - b % SIZE_RANGE)) % SIZE_RANGE

/-- Conversion of a `size_t` to the `int num` parameter of `SSL_read` and
`SSL_write`: the value modulo 2^32, read as a signed 32-bit integer. -/
def toInt (n : Nat) : Int :=
  if n % 2 ^ 32 < 2 ^ 31 then ((n % 2 ^ 32 : Nat) : Int) else ((n % 2 ^ 32 : Nat) : Int) - 2 ^ 32

/-! ## Data model -/

/-- The two mutex members of a `TlsStream`. -/
inductive Mutex
  | m_IOActionLock
  | m_SSLLock
  deriving DecidableEq, Repr

/-- Role of the connection, `ConnectionRole` in the source. -/
inductive ConnectionRole
  | RoleClient
  | RoleServer
  deriving DecidableEq, Repr

/-- Library function named in a thrown `openssl_error` (`boost::errinfo_api_function`). -/
inductive ApiFunction
  | SSL_new
  | SSL_do_handshake
  | SSL_read
  | SSL_write
  deriving DecidableEq, Repr

/-- Calls made by the code, in the order it makes them.  `Poll rd wr threw`
is `m_Socket->Poll(rd, wr)` and records whether the call threw.  The class
`Socket` is not among the sources; as in the specification, `MakeNonBlocking`,
`GetFD` and `Close` return normally and `Poll` blocks until the socket is
ready or raises a wait error. -/
inductive Event
  | lock (m : Mutex)
  | unlock (m : Mutex)
  | SSL_new
  | SSL_get_ex_new_index
  | SSL_set_ex_data (index : Int)
  | SSL_set_verify
  | MakeNonBlocking
  | GetFD
  | SSL_set_fd
  | SSL_set_accept_state
  | SSL_set_connect_state
  | SSL_do_handshake
  | SSL_read (offset : Nat) (num : Int)
  | SSL_write (offset : Nat) (num : Int)
  | SSL_shutdown
  | SSL_get_error
  | Poll (rd wr threw : Bool)
  | SocketClose
  | Log
  deriving DecidableEq, Repr

/-- Exceptions that leave an operation. -/
inductive Error
  | openssl_error (api : ApiFunction) (code : Nat)
  | poll_error
  deriving DecidableEq, Repr

/-- One reply of the environment: the value `rc` returned by the engine call,
the value `SSL_get_error` gives for it, the value of `ERR_peek_error()`, and
whether the `Socket::Poll` made in response to it throws a `std::exception`. -/
structure Reply where
  rc : Int
  err : Int
  peek : Nat
  pollThrows : Bool
  deriving DecidableEq, Repr

/-- Mutable state of a stream as seen by the calling thread: `m_Eof`, whether
`m_Socket->Close()` has been called, and which of the two mutexes the calling
thread owns.  A mutex left owned by a thread that is stuck is recorded the same
way: for any thread that calls next, it cannot be acquired. -/
structure State where
  m_Eof : Bool
  socketClosed : Bool
  ioLocked : Bool
  sslLocked : Bool
  deriving DecidableEq, Repr

/-- How a run ends: normal return, exception, the thread stuck in the
constructor of a `scoped_lock`, or the script of replies used up. -/
inductive Outcome (α : Type)
  | returned (v : α)
  | raised (e : Error)
  | blocked (m : Mutex)
  | starved
  deriving DecidableEq, Repr

/-- A run: final state, calls made, outcome. -/
structure Run (α : Type) where
  state : State
  trace : List Event
  outcome : Outcome α
  deriving DecidableEq, Repr

/-- Constructor of `boost::mutex::scoped_lock`: `none` when the calling thread
already owns the (non-recursive) mutex. -/
def State.acquire (s : State) : Mutex → Option State
  | .m_IOActionLock => if s.ioLocked then none else some { s with ioLocked := true }
  | .m_SSLLock => if s.sslLocked then none else some { s with sslLocked := true }

/-- Destructor of `boost::mutex::scoped_lock`. -/
def State.release (s : State) : Mutex → State
  | .m_IOActionLock => { s with ioLocked := false }
  | .m_SSLLock => { s with sslLocked := false }

/-- The run `r` preceded by the calls `evs`. -/
def Run.after {α : Type} (r : Run α) (evs : List Event) : Run α :=
  { r with trace := evs ++ r.trace }

/-- Leaving the scope of a `scoped_lock` on `m` by return or by exception:
the lock is released.  A run that is stuck keeps it. -/
def Run.leave {α : Type} (r : Run α) (m : Mutex) : Run α :=
  match r.outcome with
  | .returned _ => ⟨r.state.release m, r.trace ++ [.unlock m], r.outcome⟩
  | .raised _ => ⟨r.state.release m, r.trace ++ [.unlock m], r.outcome⟩
  | .blocked _ => r
  | .starved => r

/-- The statement `return v;` after a call that produced `r`. -/
def Run.thenReturn {α β : Type} (r : Run α) (v : β) : Run β :=
  match r.outcome with
  | .returned _ => ⟨r.state, r.trace, .returned v⟩
  | .raised e => ⟨r.state, r.trace, .raised e⟩
  | .blocked m => ⟨r.state, r.trace, .blocked m⟩
  | .starved => ⟨r.state, r.trace, .starved⟩

/-! ## Close -/

/-- The loop `for (int i = 0; i < 5; i++)` of `Close`; `returned` means
control has reached the label `close_socket`. -/
def closeLoop : List Reply → Nat → State → Run Unit
  | [], i, s =>
    if i < 5 then
      match s.acquire .m_SSLLock with
      | none => ⟨s, [], .blocked .m_SSLLock⟩
      | some s1 => ⟨s1, [.lock .m_SSLLock, .SSL_shutdown], .starved⟩
    else ⟨s, [], .returned ()⟩
  | r :: rs, i, s =>
    if i < 5 then
      match s.acquire .m_SSLLock with
      | none => ⟨s, [], .blocked .m_SSLLock⟩
      | some s1 =>
        let s2 := s1.release .m_SSLLock
        if r.rc = 0 then
          (closeLoop rs (i + 1) s2).after [.lock .m_SSLLock, .SSL_shutdown, .unlock .m_SSLLock]
        else if r.rc > 0 then
          ⟨s2, [.lock .m_SSLLock, .SSL_shutdown, .unlock .m_SSLLock], .returned ()⟩
        else if r.err = SSL_ERROR_WANT_READ then
          (closeLoop rs (i + 1) s2).after
            [.lock .m_SSLLock, .SSL_shutdown, .SSL_get_error, .unlock .m_SSLLock,
             .Poll true false r.pollThrows]
        else if r.err = SSL_ERROR_WANT_WRITE then
          (closeLoop rs (i + 1) s2).after
            [.lock .m_SSLLock, .SSL_shutdown, .SSL_get_error, .unlock .m_SSLLock,
             .Poll false true r.pollThrows]
        else
          ⟨s2, [.lock .m_SSLLock, .SSL_shutdown, .SSL_get_error, .unlock .m_SSLLock],
            .returned ()⟩
    else ⟨s, [], .returned ()⟩

/-- The method `TlsStream::Close`. -/
def Close (rs : List Reply) (s : State) : Run Unit :=
  match s.acquire .m_IOActionLock with
  | none => ⟨s, [], .blocked .m_IOActionLock⟩
  | some s1 =>
    let r := closeLoop rs 0 { s1 with m_Eof := true }
    match r.outcome with
    | .returned _ =>
      (Run.mk { r.state with socketClosed := true }
        (.lock .m_IOActionLock :: (r.trace ++ [.SocketClose])) (.returned ())).leave
        .m_IOActionLock
    | _ => (r.after [.lock .m_IOActionLock]).leave .m_IOActionLock

/-! ## Handshake -/

/-- The loop `for (;;)` of `Handshake`. -/
def handshakeLoop : List Reply → State → Run Unit
  | [], s =>
    match s.acquire .m_SSLLock with
    | none => ⟨s, [], .blocked .m_SSLLock⟩
    | some s1 => ⟨s1, [.lock .m_SSLLock, .SSL_do_handshake], .starved⟩
  | r :: rs, s =>
    match s.acquire .m_SSLLock with
    | none => ⟨s, [], .blocked .m_SSLLock⟩
    | some s1 =>
      let s2 := s1.release .m_SSLLock
      if r.rc > 0 then
        ⟨s2, [.lock .m_SSLLock, .SSL_do_handshake, .unlock .m_SSLLock], .returned ()⟩
      else if r.err = SSL_ERROR_WANT_READ then
        (handshakeLoop rs s2).after
          [.lock .m_SSLLock, .SSL_do_handshake, .SSL_get_error, .unlock .m_SSLLock,
           .Poll true false r.pollThrows]
      else if r.err = SSL_ERROR_WANT_WRITE then
        (handshakeLoop rs s2).after
          [.lock .m_SSLLock, .SSL_do_handshake, .SSL_get_error, .unlock .m_SSLLock,
           .Poll false true r.pollThrows]
      else if r.err = SSL_ERROR_ZERO_RETURN then
        ((Close rs s2).thenReturn ()).after
          [.lock .m_SSLLock, .SSL_do_handshake, .SSL_get_error, .unlock .m_SSLLock]
      else
        ⟨s2, [.lock .m_SSLLock, .SSL_do_handshake, .SSL_get_error, .unlock .m_SSLLock, .Log],
          .raised (.openssl_error .SSL_do_handshake r.peek)⟩

/-- The method `TlsStream::Handshake`. -/
def Handshake (rs : List Reply) (s : State) : Run Unit :=
  match s.acquire .m_IOActionLock with
  | none => ⟨s, [], .blocked .m_IOActionLock⟩
  | some s1 => ((handshakeLoop rs s1).after [.lock .m_IOActionLock]).leave .m_IOActionLock

/-! ## Read and Write -/

/-- The loop `while (left > 0)` of `Read`. -/
def readLoop (count : Nat) : List Reply → Nat → State → Run Nat
  | [], left, s =>
    if left > 0 then
      match s.acquire .m_SSLLock with
      | none => ⟨s, [], .blocked .m_SSLLock⟩
      | some s1 =>
        ⟨s1, [.lock .m_SSLLock, .SSL_read (subSize count left) (toInt left)], .starved⟩
    else ⟨s, [], .returned count⟩
  | r :: rs, left, s =>
    if left > 0 then
      match s.acquire .m_SSLLock with
      | none => ⟨s, [], .blocked .m_SSLLock⟩
      | some s1 =>
        let s2 := s1.release .m_SSLLock
        if r.rc ≤ 0 then
          if r.err = SSL_ERROR_WANT_READ then
            (readLoop count rs left s2).after
              [.lock .m_SSLLock, .SSL_read (subSize count left) (toInt left), .SSL_get_error,
               .unlock .m_SSLLock, .Poll true false r.pollThrows]
          else if r.err = SSL_ERROR_WANT_WRITE then
            (readLoop count rs left s2).after
              [.lock .m_SSLLock, .SSL_read (subSize count left) (toInt left), .SSL_get_error,
               .unlock .m_SSLLock, .Poll false true r.pollThrows]
          else if r.err = SSL_ERROR_ZERO_RETURN then
            ((Close rs s2).thenReturn (subSize count left)).after
              [.lock .m_SSLLock, .SSL_read (subSize count left) (toInt left), .SSL_get_error,
               .unlock .m_SSLLock]
          else
            ⟨s2, [.lock .m_SSLLock, .SSL_read (subSize count left) (toInt left), .SSL_get_error,
                  .unlock .m_SSLLock, .Log],
              .raised (.openssl_error .SSL_read r.peek)⟩
        else
          (readLoop count rs (subSize left r.rc.toNat) s2).after
            [.lock .m_SSLLock, .SSL_read (subSize count left) (toInt left), .unlock .m_SSLLock]
    else ⟨s, [], .returned count⟩

/-- The method `TlsStream::Read`; `firstPollThrows` says whether the
`m_Socket->Poll(true, false)` made before the operation lock is taken throws. -/
def Read (rs : List Reply) (firstPollThrows : Bool) (count : Nat) (s : State) : Run Nat :=
  if firstPollThrows then ⟨s, [.Poll true false true], .raised .poll_error⟩
  else
    match s.acquire .m_IOActionLock with
    | none => ⟨s, [.Poll true false false], .blocked .m_IOActionLock⟩
    | some s1 =>
      ((readLoop count rs count s1).after
        [.Poll true false false, .lock .m_IOActionLock]).leave .m_IOActionLock

/-- The loop `while (left > 0)` of `Write`. -/
def writeLoop (count : Nat) : List Reply → Nat → State → Run Unit
  | [], left, s =>
    if left > 0 then
      match s.acquire .m_SSLLock with
      | none => ⟨s, [], .blocked .m_SSLLock⟩
      | some s1 =>
        ⟨s1, [.lock .m_SSLLock, .SSL_write (subSize count left) (toInt left)], .starved⟩
    else ⟨s, [], .returned ()⟩
  | r :: rs, left, s =>
    if left > 0 then
      match s.acquire .m_SSLLock with
      | none => ⟨s, [], .blocked .m_SSLLock⟩
      | some s1 =>
        let s2 := s1.release .m_SSLLock
        if r.rc ≤ 0 then
          if r.err = SSL_ERROR_WANT_READ then
            (writeLoop count rs left s2).after
              [.lock .m_SSLLock, .SSL_write (subSize count left) (toInt left), .SSL_get_error,
               .unlock .m_SSLLock, .Poll true false r.pollThrows]
          else if r.err = SSL_ERROR_WANT_WRITE then
            (writeLoop count rs left s2).after
              [.lock .m_SSLLock, .SSL_write (subSize count left) (toInt left), .SSL_get_error,
               .unlock .m_SSLLock, .Poll false true r.pollThrows]
          else if r.err = SSL_ERROR_ZERO_RETURN then
            ((Close rs s2).thenReturn ()).after
              [.lock .m_SSLLock, .SSL_write (subSize count left) (toInt left), .SSL_get_error,
               .unlock .m_SSLLock]
          else
            ⟨s2, [.lock .m_SSLLock, .SSL_write (subSize count left) (toInt left), .SSL_get_error,
                  .unlock .m_SSLLock, .Log],
              .raised (.openssl_error .SSL_write r.peek)⟩
        else
          (writeLoop count rs (subSize left r.rc.toNat) s2).after
            [.lock .m_SSLLock, .SSL_write (subSize count left) (toInt left), .unlock .m_SSLLock]
    else ⟨s, [], .returned ()⟩

/-- The method `TlsStream::Write`; `firstPollThrows` says whether the
`m_Socket->Poll(false, true)` made before the operation lock is taken throws. -/
def Write (rs : List Reply) (firstPollThrows : Bool) (count : Nat) (s : State) : Run Unit :=
  if firstPollThrows then ⟨s, [.Poll false true true], .raised .poll_error⟩
  else
    match s.acquire .m_IOActionLock with
    | none => ⟨s, [.Poll false true false], .blocked .m_IOActionLock⟩
    | some s1 =>
      ((writeLoop count rs count s1).after
        [.Poll false true false, .lock .m_IOActionLock]).leave .m_IOActionLock

/-- The method `TlsStream::IsEof`. -/
def IsEof (s : State) : Bool := s.m_Eof

/-! ## Constructor -/

/-- The static members `m_SSLIndex` and `m_SSLIndexInitialized`. -/
structure Globals where
  m_SSLIndex : Int
  m_SSLIndexInitialized : Bool
  deriving DecidableEq, Repr

/-- The static members at program start: `m_SSLIndexInitialized = false`. -/
def Globals.initial : Globals := ⟨0, false⟩

/-- Members set by the constructor; `m_SSL` is `none` for a null pointer. -/
structure Members where
  m_Eof : Bool
  m_Role : ConnectionRole
  m_SSL : Option Nat
  deriving DecidableEq, Repr

/-- What the library answers during one construction: the pointer returned by
`SSL_new` (`none` for null), the value `SSL_get_ex_new_index` returns if it is
called, and the value of `ERR_peek_error()`. -/
structure NewReply where
  session : Option Nat
  index : Int
  peek : Nat
  deriving DecidableEq, Repr

/-- A run of the constructor: static members afterwards, calls made, and the
constructed members or the exception. -/
structure Construction where
  globals : Globals
  trace : List Event
  result : Outcome Members
  deriving DecidableEq, Repr

/-- The constructor `TlsStream::TlsStream(socket, role, sslContext)`. -/
def TlsStream (role : ConnectionRole) (env : NewReply) (g : Globals) : Construction :=
  match env.session with
  | none => ⟨g, [.SSL_new, .Log], .raised (.openssl_error .SSL_new env.peek)⟩
  | some ssl =>
    let g1 : Globals := if g.m_SSLIndexInitialized then g else ⟨env.index, true⟩
    ⟨g1,
     .SSL_new :: ((if g.m_SSLIndexInitialized then [] else [.SSL_get_ex_new_index]) ++
       [.SSL_set_ex_data g1.m_SSLIndex, .SSL_set_verify, .MakeNonBlocking, .GetFD, .SSL_set_fd,
        if role = .RoleServer then .SSL_set_accept_state else .SSL_set_connect_state]),
     .returned ⟨false, role, some ssl⟩⟩

/-- A sequence of constructions in one process: the static members at the end
and all calls made. -/
def constructAll : List (ConnectionRole × NewReply) → Globals → Globals × List Event
  | [], g => (g, [])
  | c :: cs, g =>
    ((constructAll cs (TlsStream c.1 c.2 g).globals).1,
     (TlsStream c.1 c.2 g).trace ++ (constructAll cs (TlsStream c.1 c.2 g).globals).2)

/-! ## Vocabulary of the statements -/

/-- Replies after which the loop of `Close` goes round again: `rc == 0`, or a
negative `rc` classified needs-read or needs-write. -/
def closeRetries (r : Reply) : Bool :=
  r.rc = 0 || (r.rc < 0 && (r.err = SSL_ERROR_WANT_READ || r.err = SSL_ERROR_WANT_WRITE))

/-- Calls of a trace that are not lock operations. -/
def calls (t : List Event) : List Event :=
  t.filter (fun e => match e with
    | .lock _ => false
    | .unlock _ => false
    | _ => true)

/-- Replies classified needs-read or needs-write: `rc <= 0` and `SSL_get_error`
gives `SSL_ERROR_WANT_READ` or `SSL_ERROR_WANT_WRITE`. -/
def isRetry (r : Reply) : Bool :=
  r.rc ≤ 0 && (r.err = SSL_ERROR_WANT_READ || r.err = SSL_ERROR_WANT_WRITE)

/-- Replies classified clean shutdown by the peer. -/
def isCleanShutdown (r : Reply) : Bool :=
  r.rc ≤ 0 && r.err = SSL_ERROR_ZERO_RETURN

/-- Replies that are non-positive and classified neither needs-read, needs-write
nor clean shutdown. -/
def isFatal (r : Reply) : Bool :=
  r.rc ≤ 0 && r.err ≠ SSL_ERROR_WANT_READ && r.err ≠ SSL_ERROR_WANT_WRITE
    && r.err ≠ SSL_ERROR_ZERO_RETURN

/-- Calls of one round of the loop of `Handshake` that ends in `continue`. -/
def handshakeRetry (r : Reply) : List Event :=
  [.lock .m_SSLLock, .SSL_do_handshake, .SSL_get_error, .unlock .m_SSLLock,
   .Poll (r.err = SSL_ERROR_WANT_READ) (r.err = SSL_ERROR_WANT_WRITE) r.pollThrows]

/-- Outcome of `Handshake` as decided by the first reply that is not a retry. -/
def handshakeVerdict : Option Reply → Outcome Unit
  | none => .starved
  | some x =>
    if x.rc > 0 then .returned ()
    else if x.err = SSL_ERROR_ZERO_RETURN then .blocked .m_IOActionLock
    else .raised (.openssl_error .SSL_do_handshake x.peek)

/-- One step of the check of the session-lock discipline.  The state is `none`
while the calling thread does not hold `m_SSLLock` and `some k` while it holds
it and has made `k` engine calls under it.  The lock is taken only when free
and released only after exactly one engine call; an engine call is made only
under the lock and only as the first one under it; `SSL_get_error` is called
only under the lock, after the engine call; `Poll` is called only while the
lock is free.  A violation gives `none`. -/
def sslStep (h : Option Nat) : Event → Option (Option Nat)
  | .lock .m_SSLLock => if h = none then some (some 0) else none
  | .unlock .m_SSLLock => if h = some 1 then some none else none
  | .SSL_do_handshake => if h = some 0 then some (some 1) else none
  | .SSL_read _ _ => if h = some 0 then some (some 1) else none
  | .SSL_write _ _ => if h = some 0 then some (some 1) else none
  | .SSL_shutdown => if h = some 0 then some (some 1) else none
  | .SSL_get_error => if h = some 1 then some (some 1) else none
  | .Poll _ _ _ => if h = none then some none else none
  | _ => some h

/-- The check of the session-lock discipline over a trace, from state `h`. -/
def sslCheck (h : Option Nat) (t : List Event) : Option (Option Nat) :=
  t.foldlM sslStep h

/-- State of the session lock at the end of a run: held, one engine call made,
when the run is cut inside an engine call, free otherwise. -/
def holdAfter {α : Type} : Outcome α → Option Nat
  | .starved => some 1
  | _ => none

/-- Total of the positive results of a list of replies. -/
def posSum : List Reply → Nat
  | [] => 0
  | r :: rs => (if r.rc > 0 then r.rc.toNat else 0) + posSum rs

/-- Each positive result is at most the count that remains when it is
returned; replies after the count has been reached are not constrained. -/
def withinRemaining : Nat → List Reply → Bool
  | _, [] => true
  | left, r :: rs =>
    left = 0 ||
      (if r.rc > 0 then decide (r.rc.toNat ≤ left) && withinRemaining (left - r.rc.toNat) rs
       else withinRemaining left rs)

/-- Buffer offset and length of the `SSL_read` calls of a trace, in order. -/
def readAttempts : List Event → List (Nat × Int)
  | [] => []
  | .SSL_read offset num :: t => (offset, num) :: readAttempts t
  | _ :: t => readAttempts t

/-- Buffer offset and length of the `SSL_write` calls of a trace, in order. -/
def writeAttempts : List Event → List (Nat × Int)
  | [] => []
  | .SSL_write offset num :: t => (offset, num) :: writeAttempts t
  | _ :: t => writeAttempts t

/-- The run `r` with `m_Eof` replaced by `b` in its final state. -/
def Run.withEof {α : Type} (r : Run α) (b : Bool) : Run α :=
  ⟨⟨b, r.state.socketClosed, r.state.ioLocked, r.state.sslLocked⟩, r.trace, r.outcome⟩

/-- The reply `r` with the outcome of the `Poll` made in response to it
replaced by `b`. -/
def Reply.withPoll (r : Reply) (b : Bool) : Reply := ⟨r.rc, r.err, r.peek, b⟩

/-! ## Basic facts -/

@[simp] theorem acquire_ssl (e c held : Bool) :
    State.acquire ⟨e, c, held, false⟩ .m_SSLLock = some ⟨e, c, held, true⟩ := rfl

@[simp] theorem acquire_operation_lock (e c ssl : Bool) :
    State.acquire ⟨e, c, false, ssl⟩ .m_IOActionLock = some ⟨e, c, true, ssl⟩ := rfl

@[simp] theorem acquire_operation_lock_owned (e c ssl : Bool) :
    State.acquire ⟨e, c, true, ssl⟩ .m_IOActionLock = none := rfl

@[simp] theorem release_ssl (e c held ssl : Bool) :
    State.release ⟨e, c, held, ssl⟩ .m_SSLLock = ⟨e, c, held, false⟩ := rfl

@[simp] theorem release_operation_lock (e c held ssl : Bool) :
    State.release ⟨e, c, held, ssl⟩ .m_IOActionLock = ⟨e, c, false, ssl⟩ := rfl

@[simp] theorem want_read_ne_want_write : SSL_ERROR_WANT_READ ≠ SSL_ERROR_WANT_WRITE := by decide

@[simp] theorem want_write_ne_want_read : SSL_ERROR_WANT_WRITE ≠ SSL_ERROR_WANT_READ := by decide

@[simp] theorem want_read_ne_zero_return : SSL_ERROR_WANT_READ ≠ SSL_ERROR_ZERO_RETURN := by decide

@[simp] theorem want_write_ne_zero_return : SSL_ERROR_WANT_WRITE ≠ SSL_ERROR_ZERO_RETURN := by decide

@[simp] theorem zero_return_ne_want_read : SSL_ERROR_ZERO_RETURN ≠ SSL_ERROR_WANT_READ := by decide

@[simp] theorem zero_return_ne_want_write : SSL_ERROR_ZERO_RETURN ≠ SSL_ERROR_WANT_WRITE := by decide

/-! ## Close: bounded shutdown, then the socket is closed (C1) -/

theorem closeLoop_spec (rs : List Reply) : ∀ (i : Nat) (e c held : Bool),
    min (5 - i) ((rs.takeWhile closeRetries).length + 1) ≤ rs.length →
    (closeLoop rs i ⟨e, c, held, false⟩).outcome = .returned () ∧
    (closeLoop rs i ⟨e, c, held, false⟩).state = ⟨e, c, held, false⟩ ∧
    (closeLoop rs i ⟨e, c, held, false⟩).trace.count .SSL_shutdown
      = min (5 - i) ((rs.takeWhile closeRetries).length + 1) ∧
    (closeLoop rs i ⟨e, c, held, false⟩).trace.count .SocketClose = 0 := by
  induction rs with
  | nil =>
    intro i e c held h
    have hi : ¬ i < 5 := by simp at h; omega
    simp [closeLoop, hi]
    omega
  | cons r rs ih =>
    intro i e c held h
    by_cases hi : i < 5
    · simp only [closeLoop, hi, if_true, acquire_ssl, release_ssl]
      by_cases h0 : r.rc = 0
      · have hret : closeRetries r = true := by simp [closeRetries, h0]
        simp only [List.takeWhile_cons, hret, if_true, List.length_cons] at h
        obtain ⟨ho, hs, hc, hk⟩ := ih (i + 1) e c held (by omega)
        simp [h0, Run.after, ho, hs, hc, hk, closeRetries, List.takeWhile_cons]
        omega
      · by_cases hp : r.rc > 0
        · have : ¬ r.rc < 0 := by omega
          simp [h0, hp, closeRetries, List.takeWhile_cons, this]
          omega
        · have hn : r.rc < 0 := by omega
          by_cases hr : r.err = SSL_ERROR_WANT_READ
          · have hret : closeRetries r = true := by simp [closeRetries, hn, hr]
            simp only [List.takeWhile_cons, hret, if_true, List.length_cons] at h
            obtain ⟨ho, hs, hc, hk⟩ := ih (i + 1) e c held (by omega)
            simp [h0, hp, hr, Run.after, ho, hs, hc, hk, closeRetries, List.takeWhile_cons, hn]
            omega
          · by_cases hw : r.err = SSL_ERROR_WANT_WRITE
            · have hret : closeRetries r = true := by simp [closeRetries, hn, hw]
              simp only [List.takeWhile_cons, hret, if_true, List.length_cons] at h
              obtain ⟨ho, hs, hc, hk⟩ := ih (i + 1) e c held (by omega)
              simp [h0, hp, hw, Run.after, ho, hs, hc, hk, closeRetries,
                List.takeWhile_cons, hn]
              omega
            · simp [h0, hp, hr, hw, closeRetries, List.takeWhile_cons, hn]
              omega
    · simp [closeLoop, hi]
      omega

theorem calls_append (a b : List Event) : calls (a ++ b) = calls a ++ calls b := by
  simp [calls]

theorem Close_unlocked (rs : List Reply) (eof closed : Bool)
    (h : min 5 ((rs.takeWhile closeRetries).length + 1) ≤ rs.length) :
    Close rs ⟨eof, closed, false, false⟩ =
      ⟨⟨true, true, false, false⟩,
       .lock .m_IOActionLock :: ((closeLoop rs 0 ⟨true, closed, true, false⟩).trace
          ++ [.SocketClose]) ++ [.unlock .m_IOActionLock],
       .returned ()⟩ := by
  obtain ⟨ho, hs, -, -⟩ := closeLoop_spec rs 0 true closed true (by simpa using h)
  simp only [Close, acquire_operation_lock, ho, hs, Run.leave, release_operation_lock]

/-- C1: called by a thread that holds neither mutex, on any sequence of
replies that has a reply for each attempt made, `Close` makes at least one and
at most five `SSL_shutdown` calls: one for each leading reply that asks for a
retry (`rc == 0`, needs-read, needs-write) plus one, capped at five, so that
it stops after the first positive result or the first other error; it then
calls `m_Socket->Close()` exactly once, as its last call, and returns with
`IsEof` true, the socket closed and both mutexes released. -/
theorem Close_attempts_bounded_then_socket_closed (rs : List Reply) (eof closed : Bool)
    (h : min 5 ((rs.takeWhile closeRetries).length + 1) ≤ rs.length) :
    1 ≤ (Close rs ⟨eof, closed, false, false⟩).trace.count .SSL_shutdown ∧
    (Close rs ⟨eof, closed, false, false⟩).trace.count .SSL_shutdown ≤ 5 ∧
    (Close rs ⟨eof, closed, false, false⟩).trace.count .SSL_shutdown
      = min 5 ((rs.takeWhile closeRetries).length + 1) ∧
    (Close rs ⟨eof, closed, false, false⟩).trace.count .SocketClose = 1 ∧
    (calls (Close rs ⟨eof, closed, false, false⟩).trace).getLast? = some .SocketClose ∧
    (Close rs ⟨eof, closed, false, false⟩).outcome = .returned () ∧
    IsEof (Close rs ⟨eof, closed, false, false⟩).state = true ∧
    (Close rs ⟨eof, closed, false, false⟩).state = ⟨true, true, false, false⟩ := by
  obtain ⟨-, -, hc, hk⟩ := closeLoop_spec rs 0 true closed true (by simpa using h)
  rw [Close_unlocked rs eof closed h]
  have hcount : (Event.lock Mutex.m_IOActionLock ::
        ((closeLoop rs 0 ⟨true, closed, true, false⟩).trace ++ [Event.SocketClose]) ++
        [Event.unlock Mutex.m_IOActionLock]).count .SSL_shutdown
      = min 5 ((rs.takeWhile closeRetries).length + 1) := by
    simp [List.count_cons, hc]
  refine ⟨?_, ?_, hcount, ?_, ?_, rfl, rfl, rfl⟩
  · simp only [hcount]; omega
  · simp only [hcount]; omega
  · simp [List.count_cons, hk]
  · have : calls (Event.lock Mutex.m_IOActionLock ::
        ((closeLoop rs 0 ⟨true, closed, true, false⟩).trace ++ [Event.SocketClose]) ++
        [Event.unlock Mutex.m_IOActionLock])
        = calls (closeLoop rs 0 ⟨true, closed, true, false⟩).trace ++ [.SocketClose] := by
      simp [calls]
    rw [this]
    simp

/-- C1 on the replies retry, needs-read with a failing `Poll`, success: three
attempts answered by three replies, then the socket is closed. -/
theorem Close_attempts_bounded_then_socket_closed_witness :
    min 5 ((([⟨0, 0, 0, false⟩, ⟨-1, 2, 0, true⟩, ⟨1, 0, 0, false⟩] : List Reply).takeWhile
        closeRetries).length + 1)
      ≤ ([⟨0, 0, 0, false⟩, ⟨-1, 2, 0, true⟩, ⟨1, 0, 0, false⟩] : List Reply).length ∧
    (Close [⟨0, 0, 0, false⟩, ⟨-1, 2, 0, true⟩, ⟨1, 0, 0, false⟩]
        ⟨false, false, false, false⟩).trace.count .SSL_shutdown = 3 ∧
    (calls (Close [⟨0, 0, 0, false⟩, ⟨-1, 2, 0, true⟩, ⟨1, 0, 0, false⟩]
        ⟨false, false, false, false⟩).trace).getLast? = some .SocketClose ∧
    (Close [⟨0, 0, 0, false⟩, ⟨-1, 2, 0, true⟩, ⟨1, 0, 0, false⟩]
        ⟨false, false, false, false⟩).state = ⟨true, true, false, false⟩ :=
  ⟨by decide,
   ((Close_attempts_bounded_then_socket_closed _ false false (by decide)).2.2.1).trans
     (by decide),
   (Close_attempts_bounded_then_socket_closed _ false false (by decide)).2.2.2.2.1,
   (Close_attempts_bounded_then_socket_closed _ false false (by decide)).2.2.2.2.2.2.2⟩

/-! ## Handshake: when it raises (C6) -/

theorem Close_owned (rs : List Reply) (e c ssl : Bool) :
    Close rs ⟨e, c, true, ssl⟩ = ⟨⟨e, c, true, ssl⟩, [], .blocked .m_IOActionLock⟩ := by
  simp [Close]

theorem handshakeLoop_spec (rs : List Reply) (e c : Bool) :
    (handshakeLoop rs ⟨e, c, true, false⟩).outcome
        = handshakeVerdict (rs.find? (fun x => !isRetry x)) ∧
    (∃ tail, (handshakeLoop rs ⟨e, c, true, false⟩).trace
        = (rs.takeWhile isRetry).flatMap handshakeRetry
            ++ .lock .m_SSLLock :: .SSL_do_handshake :: tail ∧
      tail.count .SSL_do_handshake = 0) ∧
    (handshakeLoop rs ⟨e, c, true, false⟩).state.m_Eof = e ∧
    (handshakeLoop rs ⟨e, c, true, false⟩).state.socketClosed = c ∧
    (handshakeLoop rs ⟨e, c, true, false⟩).state.ioLocked = true := by
  induction rs with
  | nil => exact ⟨rfl, ⟨[], by simp [handshakeLoop], rfl⟩, rfl, rfl, rfl⟩
  | cons r rs ih =>
    obtain ⟨ho, ⟨tail, ht, hc⟩, h1, h2, h3⟩ := ih
    simp only [handshakeLoop, acquire_ssl, release_ssl]
    by_cases hp : r.rc > 0
    · have : ¬ r.rc ≤ 0 := by omega
      exact ⟨by simp [hp, isRetry, this, handshakeVerdict],
        ⟨[.unlock .m_SSLLock], by simp [hp, isRetry, List.takeWhile_cons, this], by decide⟩,
        by simp [hp], by simp [hp], by simp [hp]⟩
    · have hn : r.rc ≤ 0 := by omega
      by_cases hr : r.err = SSL_ERROR_WANT_READ
      · exact ⟨by simp [hp, hr, Run.after, ho, isRetry, hn],
          ⟨tail, by simp [hp, hr, want_read_ne_want_write, Run.after, ht, isRetry,
            List.takeWhile_cons, hn, handshakeRetry], hc⟩,
          by simp [hp, hr, Run.after, h1], by simp [hp, hr, Run.after, h2],
          by simp [hp, hr, Run.after, h3]⟩
      · by_cases hw : r.err = SSL_ERROR_WANT_WRITE
        · exact ⟨by simp [hp, hw, want_write_ne_want_read, Run.after, ho, isRetry, hn],
            ⟨tail, by simp [hp, hw, want_write_ne_want_read, Run.after, ht, isRetry,
              List.takeWhile_cons, hn, handshakeRetry], hc⟩,
            by simp [hp, hw, want_write_ne_want_read, Run.after, h1],
            by simp [hp, hw, want_write_ne_want_read, Run.after, h2],
            by simp [hp, hw, want_write_ne_want_read, Run.after, h3]⟩
        · by_cases hz : r.err = SSL_ERROR_ZERO_RETURN
          · exact ⟨by simp [hp, hr, hw, hz, Run.after, isRetry, hn, handshakeVerdict,
                Close_owned, Run.thenReturn],
              ⟨[.SSL_get_error, .unlock .m_SSLLock],
                by simp [hp, hr, hw, hz, Run.after, isRetry, List.takeWhile_cons, hn,
                  Close_owned, Run.thenReturn], by decide⟩,
              by simp [hp, hr, hw, hz, Run.after, Close_owned, Run.thenReturn],
              by simp [hp, hr, hw, hz, Run.after, Close_owned, Run.thenReturn],
              by simp [hp, hr, hw, hz, Run.after, Close_owned, Run.thenReturn]⟩
          · exact ⟨by simp [hp, hr, hw, hz, isRetry, hn, handshakeVerdict],
              ⟨[.SSL_get_error, .unlock .m_SSLLock, .Log],
                by simp [hp, hr, hw, hz, Run.after, isRetry, List.takeWhile_cons, hn],
                by decide⟩,
              by simp [hp, hr, hw, hz], by simp [hp, hr, hw, hz], by simp [hp, hr, hw, hz]⟩

@[simp] theorem Run.leave_outcome {α : Type} (r : Run α) (m : Mutex) :
    (r.leave m).outcome = r.outcome := by
  unfold Run.leave; split <;> simp_all

@[simp] theorem Run.after_outcome {α : Type} (r : Run α) (evs : List Event) :
    (r.after evs).outcome = r.outcome := rfl

@[simp] theorem Run.after_trace {α : Type} (r : Run α) (evs : List Event) :
    (r.after evs).trace = evs ++ r.trace := rfl

@[simp] theorem Run.after_state {α : Type} (r : Run α) (evs : List Event) :
    (r.after evs).state = r.state := rfl

theorem Run.leave_trace {α : Type} (r : Run α) (m : Mutex) :
    ∃ fin, (r.leave m).trace = r.trace ++ fin ∧ (fin = [] ∨ fin = [.unlock m]) := by
  unfold Run.leave; split
  · exact ⟨[.unlock m], rfl, Or.inr rfl⟩
  · exact ⟨[.unlock m], rfl, Or.inr rfl⟩
  · exact ⟨[], by simp, Or.inl rfl⟩
  · exact ⟨[], by simp, Or.inl rfl⟩

theorem Handshake_unlocked (rs : List Reply) (e c : Bool) :
    Handshake rs ⟨e, c, false, false⟩
      = ((handshakeLoop rs ⟨e, c, true, false⟩).after [.lock .m_IOActionLock]).leave
          .m_IOActionLock := by
  simp [Handshake]

/-- C6: `Handshake` raises exactly when the first reply that is not classified
needs-read or needs-write is non-positive and classified as something other
than clean shutdown, and the exception is the `openssl_error` for
`SSL_do_handshake`; every needs-read or needs-write reply before it is
followed by `Poll(true, false)` respectively `Poll(false, true)`, whose
failure is ignored, and by another `SSL_do_handshake`; no `SSL_do_handshake`
is made after the one answered by that first other reply. -/
theorem Handshake_raises_iff_first_other_reply_fatal (rs : List Reply) (eof closed : Bool) :
    ((∃ err, (Handshake rs ⟨eof, closed, false, false⟩).outcome = .raised err) ↔
      ∃ x, rs.find? (fun x => !isRetry x) = some x ∧ isFatal x = true) ∧
    (∀ err, (Handshake rs ⟨eof, closed, false, false⟩).outcome = .raised err →
      ∃ x, rs.find? (fun x => !isRetry x) = some x ∧
        err = .openssl_error .SSL_do_handshake x.peek) ∧
    (∃ tail, (Handshake rs ⟨eof, closed, false, false⟩).trace
        = .lock .m_IOActionLock :: (rs.takeWhile isRetry).flatMap handshakeRetry
            ++ .lock .m_SSLLock :: .SSL_do_handshake :: tail ∧
      tail.count .SSL_do_handshake = 0) := by
  obtain ⟨ho, ⟨tail, ht, hc⟩, -, -, -⟩ := handshakeLoop_spec rs eof closed
  rw [Handshake_unlocked]
  simp only [Run.leave_outcome, Run.after_outcome, ho]
  refine ⟨?_, ?_, ?_⟩
  · cases hf : rs.find? (fun x => !isRetry x) with
    | none => simp [handshakeVerdict]
    | some x =>
      have hx := List.find?_some hf
      simp only [isRetry, Bool.not_eq_true', Bool.and_eq_false_imp, Bool.or_eq_false_iff,
        decide_eq_true_eq, decide_eq_false_iff_not, Bool.not_eq_eq_eq_not, Bool.not_true] at hx
      by_cases hp : x.rc > 0
      · have : ¬ x.rc ≤ 0 := by omega
        simp [handshakeVerdict, hp, isFatal, this]
      · have hn : x.rc ≤ 0 := by omega
        by_cases hz : x.err = SSL_ERROR_ZERO_RETURN
        · simp [handshakeVerdict, hp, hz, isFatal]
        · simp [handshakeVerdict, hp, hz, isFatal, hn, hx hn]
  · intro err herr
    cases hf : rs.find? (fun x => !isRetry x) with
    | none => simp [hf, handshakeVerdict] at herr
    | some x =>
      refine ⟨x, rfl, ?_⟩
      simp only [hf, handshakeVerdict] at herr
      split_ifs at herr
      simpa using herr.symm
  · obtain ⟨fin, hfin, hcases⟩ := Run.leave_trace
      ((handshakeLoop rs ⟨eof, closed, true, false⟩).after [.lock .m_IOActionLock])
      .m_IOActionLock
    refine ⟨tail ++ fin, ?_, ?_⟩
    · rw [hfin, Run.after_trace, ht]; simp
    · rcases hcases with h | h <;> simp [h, hc]

/-! ## The session lock and the socket waits (C9) -/

theorem sslCheck_append (h : Option Nat) (a b : List Event) :
    sslCheck h (a ++ b) = (sslCheck h a).bind (fun k => sslCheck k b) := by
  simp [sslCheck, List.foldlM_append]

theorem sslCheck_cons (h : Option Nat) (a : Event) (b : List Event) :
    sslCheck h (a :: b) = (sslStep h a).bind (fun k => sslCheck k b) := by
  simp [sslCheck, List.foldlM_cons]

@[simp] theorem sslCheck_nil (h : Option Nat) : sslCheck h [] = some h := rfl

theorem closeLoop_sslCheck (rs : List Reply) : ∀ (i : Nat) (e c held : Bool),
    sslCheck none (closeLoop rs i ⟨e, c, held, false⟩).trace
      = some (holdAfter (closeLoop rs i ⟨e, c, held, false⟩).outcome) := by
  induction rs with
  | nil =>
    intro i e c held
    by_cases hi : i < 5 <;> simp [closeLoop, hi, sslCheck_cons, sslStep, holdAfter]
  | cons r rs ih =>
    intro i e c held
    have := ih (i + 1) e c held
    simp only [closeLoop, acquire_ssl, release_ssl]
    split_ifs <;> simp [sslCheck_cons, sslStep, holdAfter, this]

theorem handshakeLoop_sslCheck (rs : List Reply) (e c : Bool) :
    sslCheck none (handshakeLoop rs ⟨e, c, true, false⟩).trace
      = some (holdAfter (handshakeLoop rs ⟨e, c, true, false⟩).outcome) := by
  induction rs with
  | nil => simp [handshakeLoop, sslCheck_cons, sslStep, holdAfter]
  | cons r rs ih =>
    simp only [handshakeLoop, acquire_ssl, release_ssl]
    split_ifs <;>
      simp [sslCheck_cons, sslStep, holdAfter, ih, Close_owned, Run.thenReturn]

theorem readLoop_sslCheck (count : Nat) (rs : List Reply) : ∀ (left : Nat) (e c : Bool),
    sslCheck none (readLoop count rs left ⟨e, c, true, false⟩).trace
      = some (holdAfter (readLoop count rs left ⟨e, c, true, false⟩).outcome) := by
  induction rs with
  | nil =>
    intro left e c
    by_cases hl : left > 0 <;> simp [readLoop, hl, sslCheck_cons, sslStep, holdAfter]
  | cons r rs ih =>
    intro left e c
    simp only [readLoop, acquire_ssl, release_ssl]
    split_ifs <;>
      simp [sslCheck_cons, sslStep, holdAfter, ih, Close_owned, Run.thenReturn]

theorem writeLoop_sslCheck (count : Nat) (rs : List Reply) : ∀ (left : Nat) (e c : Bool),
    sslCheck none (writeLoop count rs left ⟨e, c, true, false⟩).trace
      = some (holdAfter (writeLoop count rs left ⟨e, c, true, false⟩).outcome) := by
  induction rs with
  | nil =>
    intro left e c
    by_cases hl : left > 0 <;> simp [writeLoop, hl, sslCheck_cons, sslStep, holdAfter]
  | cons r rs ih =>
    intro left e c
    simp only [writeLoop, acquire_ssl, release_ssl]
    split_ifs <;>
      simp [sslCheck_cons, sslStep, holdAfter, ih, Close_owned, Run.thenReturn]

theorem leave_sslCheck {α : Type} (r : Run α) (evs : List Event)
    (hev : sslCheck none evs = some none)
    (h : sslCheck none r.trace = some (holdAfter r.outcome)) :
    sslCheck none ((r.after evs).leave .m_IOActionLock).trace
      = some (holdAfter ((r.after evs).leave .m_IOActionLock).outcome) := by
  unfold Run.leave
  split <;> rename_i ho <;> simp only [Run.after_outcome] at ho <;>
    simp_all [sslCheck_append, sslCheck_cons, sslStep, holdAfter]

/-- C9: in every run of `Handshake`, `Read`, `Write` and `Close` the session
lock is taken only when free, covers exactly one engine call and, after a
non-positive result, its `SSL_get_error`, and is released before the next
call; `Socket::Poll` is called only while the session lock is free; and the
lock is free when the run returns, raises or is stuck. -/
theorem session_lock_covers_one_engine_call_and_no_poll (rs : List Reply)
    (firstPollThrows eof closed : Bool) (count : Nat) :
    sslCheck none (Handshake rs ⟨eof, closed, false, false⟩).trace
      = some (holdAfter (Handshake rs ⟨eof, closed, false, false⟩).outcome) ∧
    sslCheck none (Read rs firstPollThrows count ⟨eof, closed, false, false⟩).trace
      = some (holdAfter (Read rs firstPollThrows count ⟨eof, closed, false, false⟩).outcome) ∧
    sslCheck none (Write rs firstPollThrows count ⟨eof, closed, false, false⟩).trace
      = some (holdAfter (Write rs firstPollThrows count ⟨eof, closed, false, false⟩).outcome) ∧
    sslCheck none (Close rs ⟨eof, closed, false, false⟩).trace
      = some (holdAfter (Close rs ⟨eof, closed, false, false⟩).outcome) := by
  refine ⟨?_, ?_, ?_, ?_⟩
  · rw [Handshake_unlocked]
    exact leave_sslCheck _ _ (by decide) (handshakeLoop_sslCheck rs eof closed)
  · cases firstPollThrows with
    | true => simp [Read, sslCheck_cons, sslStep, holdAfter]
    | false =>
      simp only [Read, acquire_operation_lock, Bool.false_eq_true, if_false]
      exact leave_sslCheck _ _ (by decide) (readLoop_sslCheck count rs count eof closed)
  · cases firstPollThrows with
    | true => simp [Write, sslCheck_cons, sslStep, holdAfter]
    | false =>
      simp only [Write, acquire_operation_lock, Bool.false_eq_true, if_false]
      exact leave_sslCheck _ _ (by decide) (writeLoop_sslCheck count rs count eof closed)
  · have h := closeLoop_sslCheck rs 0 true closed true
    simp only [Close, acquire_operation_lock]
    split <;> rename_i ho
    · simp [Run.leave, sslCheck_cons, sslCheck_append, sslStep, holdAfter, h, ho]
    · exact leave_sslCheck _ _ (by decide) h

/-! ## Read: offsets, lengths and the value returned (C2) -/

theorem subSize_of_le (a b : Nat) (hb : b ≤ a) (ha : a < SIZE_RANGE) : subSize a b = a - b := by
  unfold subSize SIZE_RANGE at *
  omega

theorem subSize_self (a : Nat) : subSize a a = 0 := by
  unfold subSize SIZE_RANGE
  omega

theorem toInt_of_lt (n : Nat) (h : n < 2 ^ 31) : toInt n = (n : Int) := by
  unfold toInt
  have h1 : n % 2 ^ 32 = n := Nat.mod_eq_of_lt (by omega)
  rw [h1, if_pos h]

theorem readAttempts_append (a b : List Event) :
    readAttempts (a ++ b) = readAttempts a ++ readAttempts b := by
  induction a with
  | nil => rfl
  | cons x a ih => cases x <;> simp [readAttempts, ih]

theorem readLoop_attempts (count : Nat) (hc : count < SIZE_RANGE) (rs : List Reply) :
    ∀ (left : Nat) (e c : Bool), left ≤ count → withinRemaining left rs = true →
    ∀ i, i < (readAttempts (readLoop count rs left ⟨e, c, true, false⟩).trace).length →
      (readAttempts (readLoop count rs left ⟨e, c, true, false⟩).trace)[i]?
        = some (count - left + posSum (rs.take i), toInt (left - posSum (rs.take i))) := by
  induction rs with
  | nil =>
    intro left e c hl _ i hi
    by_cases h0 : left > 0
    · simp [readLoop, h0, readAttempts] at hi ⊢
      subst hi
      simp [posSum, subSize_of_le count left hl hc]
    · simp [readLoop, h0, readAttempts] at hi
  | cons r rs ih =>
    intro left e c hl hw i hi
    by_cases h0 : left > 0
    · have hne : left ≠ 0 := by omega
      simp only [withinRemaining, hne, decide_False, Bool.false_or] at hw
      simp only [readLoop, h0, if_true, acquire_ssl, release_ssl] at hi ⊢
      by_cases hp : r.rc ≤ 0
      · have hnp : ¬ r.rc > 0 := by omega
        simp only [hnp, if_false] at hw
        simp only [hp, if_true] at hi ⊢
        split_ifs at hi ⊢
        · cases i with
          | zero => simp [readAttempts, posSum, subSize_of_le count left hl hc]
          | succ j =>
            simp [readAttempts] at hi ⊢
            simpa [posSum, hnp] using ih left e c hl hw j (by simpa using hi)
        · cases i with
          | zero => simp [readAttempts, posSum, subSize_of_le count left hl hc]
          | succ j =>
            simp [readAttempts] at hi ⊢
            simpa [posSum, hnp] using ih left e c hl hw j (by simpa using hi)
        · cases i with
          | zero => simp [readAttempts, posSum, subSize_of_le count left hl hc]
          | succ j => simp [readAttempts, Close_owned, Run.thenReturn] at hi
        · cases i with
          | zero => simp [readAttempts, posSum, subSize_of_le count left hl hc]
          | succ j => simp [readAttempts] at hi
      · have hpos : r.rc > 0 := by omega
        simp only [hpos, if_true, Bool.and_eq_true, decide_eq_true_eq] at hw
        simp only [hp, if_false] at hi ⊢
        cases i with
        | zero => simp [readAttempts, posSum, subSize_of_le count left hl hc]
        | succ j =>
          have hl2 : left - r.rc.toNat ≤ count := by omega
          have hlt : left < SIZE_RANGE := by omega
          rw [subSize_of_le left r.rc.toNat hw.1 hlt] at hi ⊢
          simp [readAttempts] at hi ⊢
          have := ih (left - r.rc.toNat) e c hl2 hw.2 j (by simpa using hi)
          rw [this]
          simp only [posSum, hpos, if_true, List.take_succ_cons, Option.some.injEq, Prod.mk.injEq]
          constructor
          · omega
          · congr 1; omega
    · simp [readLoop, h0, readAttempts] at hi

theorem readLoop_returned (count : Nat) (rs : List Reply) :
    ∀ (left : Nat) (e c : Bool) (v : Nat), left < SIZE_RANGE → withinRemaining left rs = true →
    (readLoop count rs left ⟨e, c, true, false⟩).outcome = .returned v →
      v = count ∧
      posSum (rs.take (readAttempts (readLoop count rs left ⟨e, c, true, false⟩).trace).length)
        = left := by
  induction rs with
  | nil =>
    intro left e c v _ _ ho
    by_cases h0 : left > 0
    · simp [readLoop, h0] at ho
    · simp [readLoop, h0] at ho ⊢
      exact ⟨ho.symm, by simp [readAttempts, posSum]; omega⟩
  | cons r rs ih =>
    intro left e c v hl hw ho
    by_cases h0 : left > 0
    · have hne : left ≠ 0 := by omega
      simp only [withinRemaining, hne, decide_False, Bool.false_or] at hw
      simp only [readLoop, h0, if_true, acquire_ssl, release_ssl] at ho ⊢
      by_cases hp : r.rc ≤ 0
      · have hnp : ¬ r.rc > 0 := by omega
        simp only [hnp, if_false] at hw
        simp only [hp, if_true] at ho ⊢
        split_ifs at ho ⊢
        · have := ih left e c v hl hw (by simpa using ho)
          simpa [readAttempts, posSum, hnp] using this
        · have := ih left e c v hl hw (by simpa using ho)
          simpa [readAttempts, posSum, hnp] using this
        · simp [Close_owned, Run.thenReturn] at ho
      · have hpos : r.rc > 0 := by omega
        simp only [hpos, if_true, Bool.and_eq_true, decide_eq_true_eq] at hw
        simp only [hp, if_false] at ho ⊢
        rw [subSize_of_le left r.rc.toNat hw.1 hl] at ho ⊢
        have := ih (left - r.rc.toNat) e c v (by omega) hw.2 (by simpa using ho)
        refine ⟨this.1, ?_⟩
        have h2 := this.2
        simp [readAttempts, posSum, hpos] at h2 ⊢
        omega
    · simp [readLoop, h0] at ho ⊢
      exact ⟨ho.symm, by simp [readAttempts, posSum]; omega⟩

theorem readLoop_progress (count : Nat) (rs : List Reply) :
    ∀ (left : Nat) (e c : Bool), left < SIZE_RANGE → withinRemaining left rs = true →
    (∀ x ∈ rs, 0 < x.rc ∨ isRetry x = true) → left ≤ posSum rs →
    (readLoop count rs left ⟨e, c, true, false⟩).outcome = .returned count := by
  induction rs with
  | nil =>
    intro left e c _ _ _ hs
    have h0 : ¬ left > 0 := by simp [posSum] at hs; omega
    simp [readLoop, h0]
  | cons r rs ih =>
    intro left e c hl hw hall hs
    by_cases h0 : left > 0
    · have hne : left ≠ 0 := by omega
      simp only [withinRemaining, hne, decide_False, Bool.false_or] at hw
      simp only [readLoop, h0, if_true, acquire_ssl, release_ssl]
      have hall2 : ∀ x ∈ rs, 0 < x.rc ∨ isRetry x = true :=
        fun x hx => hall x (List.mem_cons_of_mem _ hx)
      by_cases hp : r.rc ≤ 0
      · have hnp : ¬ r.rc > 0 := by omega
        simp only [hnp, if_false] at hw
        simp only [posSum, hnp, if_false, Nat.zero_add] at hs
        have hret : isRetry r = true := by
          rcases hall r (List.mem_cons_self _ _) with h | h
          · omega
          · exact h
        simp only [isRetry, Bool.and_eq_true, decide_eq_true_eq, Bool.or_eq_true] at hret
        simp only [hp, if_true]
        rcases hret.2 with h | h
        · simp [h, ih left e c hl hw hall2 hs]
        · simp [h, ih left e c hl hw hall2 hs]
      · have hpos : r.rc > 0 := by omega
        simp only [hpos, if_true, Bool.and_eq_true, decide_eq_true_eq] at hw
        simp only [posSum, hpos, if_true] at hs
        simp only [hp, if_false]
        rw [subSize_of_le left r.rc.toNat hw.1 hl]
        simpa using ih (left - r.rc.toNat) e c (by omega) hw.2 hall2 (by omega)
    · simp [readLoop, h0]

theorem readLoop_raised (count : Nat) (rs : List Reply) :
    ∀ (left : Nat) (e c : Bool) (err : Error),
    (readLoop count rs left ⟨e, c, true, false⟩).outcome = .raised err →
      ∃ x ∈ rs, isFatal x = true ∧ err = .openssl_error .SSL_read x.peek := by
  induction rs with
  | nil =>
    intro left e c err ho
    by_cases h0 : left > 0 <;> simp [readLoop, h0] at ho
  | cons r rs ih =>
    intro left e c err ho
    by_cases h0 : left > 0
    · simp only [readLoop, h0, if_true, acquire_ssl, release_ssl] at ho
      split_ifs at ho with hp hr hw hz
      · obtain ⟨x, hx, h⟩ := ih left e c err (by simpa using ho)
        exact ⟨x, List.mem_cons_of_mem _ hx, h⟩
      · obtain ⟨x, hx, h⟩ := ih left e c err (by simpa using ho)
        exact ⟨x, List.mem_cons_of_mem _ hx, h⟩
      · simp [Close_owned, Run.thenReturn] at ho
      · refine ⟨r, List.mem_cons_self _ _, ?_, ?_⟩
        · simp [isFatal, hp, hr, hw, hz]
        · simpa using ho.symm
      · obtain ⟨x, hx, h⟩ := ih _ e c err (by simpa using ho)
        exact ⟨x, List.mem_cons_of_mem _ hx, h⟩
    · simp [readLoop, h0] at ho

theorem Read_unlocked (rs : List Reply) (count : Nat) (e c : Bool) :
    Read rs false count ⟨e, c, false, false⟩
      = ((readLoop count rs count ⟨e, c, true, false⟩).after
          [.Poll true false false, .lock .m_IOActionLock]).leave .m_IOActionLock := by
  simp [Read]

theorem Read_attempts (rs : List Reply) (count : Nat) (e c : Bool) :
    readAttempts (Read rs false count ⟨e, c, false, false⟩).trace
      = readAttempts (readLoop count rs count ⟨e, c, true, false⟩).trace := by
  rw [Read_unlocked]
  obtain ⟨fin, hfin, hcases⟩ := Run.leave_trace
    ((readLoop count rs count ⟨e, c, true, false⟩).after
      [.Poll true false false, .lock .m_IOActionLock]) .m_IOActionLock
  rw [hfin, Run.after_trace, readAttempts_append, readAttempts_append]
  rcases hcases with h | h <;> simp [h, readAttempts]

/-- C2 (amended): for a `count` that is a `size_t`, a first `Poll` that returns
and replies whose positive results are each at most the remaining count, the
i-th `SSL_read` is made at the buffer offset equal to the total of the positive
results of the i replies before it, with the length `(int)(count - offset)`,
which is `count - offset` when `count` is below 2^31; when no reply is a clean
shutdown, a normal return gives exactly `count`, the total of the positive
results received; `Read` does return `count` when all replies are positive,
needs-read or needs-write and the positive results reach `count`; and an
exception is the `openssl_error` for `SSL_read` of a reply classified as
another error.  What `Read` returns after a clean shutdown is not stated. -/
theorem Read_returns_count_as_total_of_positive_results (rs : List Reply) (count : Nat)
    (eof closed : Bool) (hc : count < SIZE_RANGE) (hw : withinRemaining count rs = true) :
    (∀ i, i < (readAttempts (Read rs false count ⟨eof, closed, false, false⟩).trace).length →
      (readAttempts (Read rs false count ⟨eof, closed, false, false⟩).trace)[i]?
        = some (posSum (rs.take i), toInt (count - posSum (rs.take i)))) ∧
    (count < 2 ^ 31 → ∀ n, toInt (count - n) = ((count - n : Nat) : Int)) ∧
    ((∀ x ∈ rs, isCleanShutdown x = false) →
      ∀ v, (Read rs false count ⟨eof, closed, false, false⟩).outcome = .returned v →
        v = count ∧
        v = posSum (rs.take
          (readAttempts (Read rs false count ⟨eof, closed, false, false⟩).trace).length)) ∧
    ((∀ x ∈ rs, 0 < x.rc ∨ isRetry x = true) → count ≤ posSum rs →
      (Read rs false count ⟨eof, closed, false, false⟩).outcome = .returned count) ∧
    (∀ err, (Read rs false count ⟨eof, closed, false, false⟩).outcome = .raised err →
      ∃ x ∈ rs, isFatal x = true ∧ err = .openssl_error .SSL_read x.peek) := by
  rw [Read_attempts]
  refine ⟨?_, ?_, ?_, ?_, ?_⟩
  · intro i hi
    have := readLoop_attempts count hc rs count eof closed (le_refl _) hw i hi
    simpa using this
  · intro h n
    exact toInt_of_lt _ (by omega)
  · intro _ v hv
    rw [Read_unlocked] at hv
    have := readLoop_returned count rs count eof closed v hc hw (by simpa using hv)
    exact ⟨this.1, by rw [this.2]; exact this.1⟩
  · intro hall hs
    rw [Read_unlocked]
    simpa using readLoop_progress count rs count eof closed hc hw hall hs
  · intro err herr
    rw [Read_unlocked] at herr
    exact readLoop_raised count rs count eof closed err (by simpa using herr)

/-- C2 (amended) at `count` 4 with the replies 2, needs-write with a failing
`Poll`, 2: `Read` returns 4. -/
theorem Read_returns_count_as_total_of_positive_results_witness :
    (4 : Nat) < SIZE_RANGE ∧
    withinRemaining 4 [⟨2, 0, 0, false⟩, ⟨-1, 3, 0, true⟩, ⟨2, 0, 0, false⟩] = true ∧
    (Read [⟨2, 0, 0, false⟩, ⟨-1, 3, 0, true⟩, ⟨2, 0, 0, false⟩] false 4
      ⟨false, false, false, false⟩).outcome = .returned 4 :=
  ⟨by decide, by decide,
   (Read_returns_count_as_total_of_positive_results
      [⟨2, 0, 0, false⟩, ⟨-1, 3, 0, true⟩, ⟨2, 0, 0, false⟩] 4 false false
      (by decide) (by decide)).2.2.2.1 (by decide) (by decide)⟩

/-- C2 (as stated) fails: a reply classified as another error makes `Read`
raise; a reply classified clean shutdown leaves `Read` stuck in the
constructor of the `scoped_lock` of the nested `Close`, so that it does not
return the two bytes received; and for `count` 2^31 the length passed to the
first `SSL_read` is -2^31. -/
theorem Read_not_always_returned :
    (Read [⟨-1, 1, 0, false⟩] false 1 ⟨false, false, false, false⟩).outcome
      = .raised (.openssl_error .SSL_read 0) ∧
    (Read [⟨2, 0, 0, false⟩, ⟨0, 6, 0, false⟩] false 4 ⟨false, false, false, false⟩).outcome
      = .blocked .m_IOActionLock ∧
    readAttempts (Read [] false 2147483648 ⟨false, false, false, false⟩).trace
      = [(0, -2147483648)] := by
  decide

/-! ## Write: a normal return is a complete write (C3) -/

theorem writeAttempts_append (a b : List Event) :
    writeAttempts (a ++ b) = writeAttempts a ++ writeAttempts b := by
  induction a with
  | nil => rfl
  | cons x a ih => cases x <;> simp [writeAttempts, ih]

theorem writeLoop_returned (count : Nat) (rs : List Reply) :
    ∀ (left : Nat) (e c : Bool), left < SIZE_RANGE → withinRemaining left rs = true →
    (writeLoop count rs left ⟨e, c, true, false⟩).outcome = .returned () →
      posSum (rs.take (writeAttempts (writeLoop count rs left ⟨e, c, true, false⟩).trace).length)
        = left := by
  induction rs with
  | nil =>
    intro left e c _ _ ho
    by_cases h0 : left > 0
    · simp [writeLoop, h0] at ho
    · simp [writeLoop, h0, writeAttempts, posSum]
      omega
  | cons r rs ih =>
    intro left e c hl hw ho
    by_cases h0 : left > 0
    · have hne : left ≠ 0 := by omega
      simp only [withinRemaining, hne, decide_False, Bool.false_or] at hw
      simp only [writeLoop, h0, if_true, acquire_ssl, release_ssl] at ho ⊢
      by_cases hp : r.rc ≤ 0
      · have hnp : ¬ r.rc > 0 := by omega
        simp only [hnp, if_false] at hw
        simp only [hp, if_true] at ho ⊢
        split_ifs at ho ⊢
        · have := ih left e c hl hw (by simpa using ho)
          simpa [writeAttempts, posSum, hnp] using this
        · have := ih left e c hl hw (by simpa using ho)
          simpa [writeAttempts, posSum, hnp] using this
        · simp [Close_owned, Run.thenReturn] at ho
      · have hpos : r.rc > 0 := by omega
        simp only [hpos, if_true, Bool.and_eq_true, decide_eq_true_eq] at hw
        simp only [hp, if_false] at ho ⊢
        rw [subSize_of_le left r.rc.toNat hw.1 hl] at ho ⊢
        have h2 := ih (left - r.rc.toNat) e c (by omega) hw.2 (by simpa using ho)
        simp [writeAttempts, posSum, hpos] at h2 ⊢
        omega
    · simp [writeLoop, h0, writeAttempts, posSum]
      omega

theorem Write_unlocked (rs : List Reply) (count : Nat) (e c : Bool) :
    Write rs false count ⟨e, c, false, false⟩
      = ((writeLoop count rs count ⟨e, c, true, false⟩).after
          [.Poll false true false, .lock .m_IOActionLock]).leave .m_IOActionLock := by
  simp [Write]

theorem Write_attempts (rs : List Reply) (count : Nat) (e c : Bool) :
    writeAttempts (Write rs false count ⟨e, c, false, false⟩).trace
      = writeAttempts (writeLoop count rs count ⟨e, c, true, false⟩).trace := by
  rw [Write_unlocked]
  obtain ⟨fin, hfin, hcases⟩ := Run.leave_trace
    ((writeLoop count rs count ⟨e, c, true, false⟩).after
      [.Poll false true false, .lock .m_IOActionLock]) .m_IOActionLock
  rw [hfin, Run.after_trace, writeAttempts_append, writeAttempts_append]
  rcases hcases with h | h <;> simp [h, writeAttempts]

/-- C3: for a `count` that is a `size_t` and replies in which the engine never
reports more bytes written than it was asked to write, whenever `Write`
returns normally the positive results of the replies to its `SSL_write` calls
sum to exactly `count`, or `m_Eof` is true; a normal return with a smaller
total and `m_Eof` false does not occur. -/
theorem Write_returns_only_when_complete_or_closed (rs : List Reply)
    (firstPollThrows : Bool) (count : Nat) (eof closed : Bool)
    (hc : count < SIZE_RANGE) (hw : withinRemaining count rs = true)
    (hret : (Write rs firstPollThrows count ⟨eof, closed, false, false⟩).outcome
      = .returned ()) :
    (posSum (rs.take (writeAttempts
        (Write rs firstPollThrows count ⟨eof, closed, false, false⟩).trace).length) = count ∨
      (Write rs firstPollThrows count ⟨eof, closed, false, false⟩).state.m_Eof = true) ∧
    ¬ (posSum (rs.take (writeAttempts
        (Write rs firstPollThrows count ⟨eof, closed, false, false⟩).trace).length) < count ∧
      (Write rs firstPollThrows count ⟨eof, closed, false, false⟩).state.m_Eof = false) := by
  cases firstPollThrows with
  | true => simp [Write] at hret
  | false =>
    rw [Write_unlocked] at hret
    have h := writeLoop_returned count rs count eof closed hc hw (by simpa using hret)
    rw [Write_attempts, h]
    exact ⟨Or.inl rfl, fun hn => by omega⟩

/-- C3 at `count` 4 with the replies 1, needs-read with a failing `Poll`, 3:
`Write` returns, and not with fewer than 4 bytes written. -/
theorem Write_returns_only_when_complete_or_closed_witness :
    (4 : Nat) < SIZE_RANGE ∧
    withinRemaining 4 [⟨1, 0, 0, false⟩, ⟨-1, 2, 0, true⟩, ⟨3, 0, 0, false⟩] = true ∧
    (Write [⟨1, 0, 0, false⟩, ⟨-1, 2, 0, true⟩, ⟨3, 0, 0, false⟩] false 4
      ⟨false, false, false, false⟩).outcome = .returned () ∧
    ¬ (posSum (List.take (writeAttempts
        (Write [⟨1, 0, 0, false⟩, ⟨-1, 2, 0, true⟩, ⟨3, 0, 0, false⟩] false 4
          ⟨false, false, false, false⟩).trace).length
        [⟨1, 0, 0, false⟩, ⟨-1, 2, 0, true⟩, ⟨3, 0, 0, false⟩]) < 4 ∧
      (Write [⟨1, 0, 0, false⟩, ⟨-1, 2, 0, true⟩, ⟨3, 0, 0, false⟩] false 4
        ⟨false, false, false, false⟩).state.m_Eof = false) :=
  ⟨by decide, by decide, by decide,
   (Write_returns_only_when_complete_or_closed
      [⟨1, 0, 0, false⟩, ⟨-1, 2, 0, true⟩, ⟨3, 0, 0, false⟩] false 4 false false
      (by decide) (by decide) (by decide)).2⟩

/-! ## The operations do not test `m_Eof` (C4) -/

theorem handshakeLoop_eof (rs : List Reply) (e c : Bool) :
    handshakeLoop rs ⟨e, c, true, false⟩
      = (handshakeLoop rs ⟨false, c, true, false⟩).withEof e := by
  induction rs with
  | nil => simp [handshakeLoop, Run.withEof]
  | cons r rs ih =>
    simp only [handshakeLoop, acquire_ssl, release_ssl]
    split_ifs <;> simp [Run.after, Run.withEof, Close_owned, Run.thenReturn]
    all_goals rw [ih]; simp [Run.withEof]

theorem readLoop_eof (count : Nat) (rs : List Reply) : ∀ (left : Nat) (e c : Bool),
    readLoop count rs left ⟨e, c, true, false⟩
      = (readLoop count rs left ⟨false, c, true, false⟩).withEof e := by
  induction rs with
  | nil =>
    intro left e c
    by_cases h0 : left > 0 <;> simp [readLoop, h0, Run.withEof]
  | cons r rs ih =>
    intro left e c
    simp only [readLoop, acquire_ssl, release_ssl]
    split_ifs <;> simp [Run.after, Run.withEof, Close_owned, Run.thenReturn]
    all_goals rw [ih]; simp [Run.withEof]

theorem writeLoop_eof (count : Nat) (rs : List Reply) : ∀ (left : Nat) (e c : Bool),
    writeLoop count rs left ⟨e, c, true, false⟩
      = (writeLoop count rs left ⟨false, c, true, false⟩).withEof e := by
  induction rs with
  | nil =>
    intro left e c
    by_cases h0 : left > 0 <;> simp [writeLoop, h0, Run.withEof]
  | cons r rs ih =>
    intro left e c
    simp only [writeLoop, acquire_ssl, release_ssl]
    split_ifs <;> simp [Run.after, Run.withEof, Close_owned, Run.thenReturn]
    all_goals rw [ih]; simp [Run.withEof]

theorem leave_withEof {α : Type} (r : Run α) (evs : List Event) (b : Bool) :
    ((r.withEof b).after evs).leave .m_IOActionLock
      = ((r.after evs).leave .m_IOActionLock).withEof b := by
  unfold Run.leave
  cases h : r.outcome <;> simp [Run.after, Run.withEof, h, State.release]

theorem ops_eof (rs : List Reply) (p : Bool) (count : Nat) (e c : Bool) :
    Handshake rs ⟨e, c, false, false⟩ = (Handshake rs ⟨false, c, false, false⟩).withEof e ∧
    Read rs p count ⟨e, c, false, false⟩ = (Read rs p count ⟨false, c, false, false⟩).withEof e ∧
    Write rs p count ⟨e, c, false, false⟩
      = (Write rs p count ⟨false, c, false, false⟩).withEof e := by
  refine ⟨?_, ?_, ?_⟩
  · rw [Handshake_unlocked, Handshake_unlocked, handshakeLoop_eof, leave_withEof]
  · cases p with
    | true => simp [Read, Run.withEof]
    | false => rw [Read_unlocked, Read_unlocked, readLoop_eof, leave_withEof]
  · cases p with
    | true => simp [Write, Run.withEof]
    | false => rw [Write_unlocked, Write_unlocked, writeLoop_eof, leave_withEof]

/-- C4 (as stated) fails: after a `Close` whose five `SSL_shutdown` calls all
ask for a retry, `m_Eof` is true and the socket is closed; on that stream
`Handshake` still calls `SSL_do_handshake` and returns normally when it
returns 1, `Read` still calls `SSL_read` and returns 1 when it returns 1, and
`Write` still calls `SSL_write` and returns normally. -/
theorem operations_after_eof_succeed :
    (Close [⟨0, 0, 0, false⟩, ⟨0, 0, 0, false⟩, ⟨0, 0, 0, false⟩, ⟨0, 0, 0, false⟩,
        ⟨0, 0, 0, false⟩] ⟨false, false, false, false⟩).state = ⟨true, true, false, false⟩ ∧
    Handshake [⟨1, 0, 0, false⟩]
        (Close [⟨0, 0, 0, false⟩, ⟨0, 0, 0, false⟩, ⟨0, 0, 0, false⟩, ⟨0, 0, 0, false⟩,
          ⟨0, 0, 0, false⟩] ⟨false, false, false, false⟩).state
      = ⟨⟨true, true, false, false⟩,
         [.lock .m_IOActionLock, .lock .m_SSLLock, .SSL_do_handshake,
          .unlock .m_SSLLock, .unlock .m_IOActionLock],
         .returned ()⟩ ∧
    Read [⟨1, 0, 0, false⟩] false 1
        (Close [⟨0, 0, 0, false⟩, ⟨0, 0, 0, false⟩, ⟨0, 0, 0, false⟩, ⟨0, 0, 0, false⟩,
          ⟨0, 0, 0, false⟩] ⟨false, false, false, false⟩).state
      = ⟨⟨true, true, false, false⟩,
         [.Poll true false false, .lock .m_IOActionLock, .lock .m_SSLLock, .SSL_read 0 1,
          .unlock .m_SSLLock, .unlock .m_IOActionLock],
         .returned 1⟩ ∧
    Write [⟨1, 0, 0, false⟩] false 1
        (Close [⟨0, 0, 0, false⟩, ⟨0, 0, 0, false⟩, ⟨0, 0, 0, false⟩, ⟨0, 0, 0, false⟩,
          ⟨0, 0, 0, false⟩] ⟨false, false, false, false⟩).state
      = ⟨⟨true, true, false, false⟩,
         [.Poll false true false, .lock .m_IOActionLock, .lock .m_SSLLock, .SSL_write 0 1,
          .unlock .m_SSLLock, .unlock .m_IOActionLock],
         .returned ()⟩ := by
  decide

/-- C4 (amended): `Handshake`, `Read` and `Write` do not consult `m_Eof`.
Called on a stream whose `m_Eof` is true, each makes exactly the calls and has
exactly the outcome it has on the same stream with `m_Eof` false, so it
succeeds whenever the engine reports success; and `m_Eof` is still true
afterwards. -/
theorem eof_is_kept_but_not_consulted (rs : List Reply) (firstPollThrows : Bool)
    (count : Nat) (closed : Bool) :
    ((Handshake rs ⟨true, closed, false, false⟩).trace
        = (Handshake rs ⟨false, closed, false, false⟩).trace ∧
      (Handshake rs ⟨true, closed, false, false⟩).outcome
        = (Handshake rs ⟨false, closed, false, false⟩).outcome ∧
      (Handshake rs ⟨true, closed, false, false⟩).state.m_Eof = true) ∧
    ((Read rs firstPollThrows count ⟨true, closed, false, false⟩).trace
        = (Read rs firstPollThrows count ⟨false, closed, false, false⟩).trace ∧
      (Read rs firstPollThrows count ⟨true, closed, false, false⟩).outcome
        = (Read rs firstPollThrows count ⟨false, closed, false, false⟩).outcome ∧
      (Read rs firstPollThrows count ⟨true, closed, false, false⟩).state.m_Eof = true) ∧
    ((Write rs firstPollThrows count ⟨true, closed, false, false⟩).trace
        = (Write rs firstPollThrows count ⟨false, closed, false, false⟩).trace ∧
      (Write rs firstPollThrows count ⟨true, closed, false, false⟩).outcome
        = (Write rs firstPollThrows count ⟨false, closed, false, false⟩).outcome ∧
      (Write rs firstPollThrows count ⟨true, closed, false, false⟩).state.m_Eof = true) := by
  obtain ⟨h1, h2, h3⟩ := ops_eof rs firstPollThrows count true closed
  rw [h1, h2, h3]
  simp [Run.withEof]

/-! ## A clean shutdown inside an operation (C7) and a `Read` after it (C8) -/

theorem readLoop_returned_count (count : Nat) (rs : List Reply) : ∀ (left : Nat) (e c : Bool)
    (v : Nat), (readLoop count rs left ⟨e, c, true, false⟩).outcome = .returned v → v = count := by
  induction rs with
  | nil =>
    intro left e c v ho
    by_cases h0 : left > 0 <;> simp [readLoop, h0] at ho
    exact ho.symm
  | cons r rs ih =>
    intro left e c v ho
    by_cases h0 : left > 0
    · simp only [readLoop, h0, if_true, acquire_ssl, release_ssl] at ho
      split_ifs at ho
      · exact ih left e c v (by simpa using ho)
      · exact ih left e c v (by simpa using ho)
      · simp [Close_owned, Run.thenReturn] at ho
      · exact ih _ e c v (by simpa using ho)
    · simp [readLoop, h0] at ho
      exact ho.symm

theorem readLoop_first_call (count : Nat) (hpos : 0 < count) (rs : List Reply) (e c : Bool) :
    ∃ tail, (readLoop count rs count ⟨e, c, true, false⟩).trace
      = .lock .m_SSLLock :: .SSL_read 0 (toInt count) :: tail := by
  cases rs with
  | nil => exact ⟨[], by simp [readLoop, hpos, subSize_self]⟩
  | cons r rs =>
    simp only [readLoop, hpos, if_true, acquire_ssl, release_ssl, gt_iff_lt, subSize_self]
    split_ifs <;> simp [Run.after, Run.thenReturn]

theorem handshakeLoop_keeps (rs : List Reply) (e c : Bool) :
    (handshakeLoop rs ⟨e, c, true, false⟩).state.m_Eof = e ∧
    (handshakeLoop rs ⟨e, c, true, false⟩).state.socketClosed = c ∧
    (handshakeLoop rs ⟨e, c, true, false⟩).trace.count .SocketClose = 0 := by
  induction rs with
  | nil => simp [handshakeLoop]
  | cons r rs ih =>
    simp only [handshakeLoop, acquire_ssl, release_ssl]
    split_ifs <;> simp [ih, Close_owned, Run.thenReturn]

theorem readLoop_keeps (count : Nat) (rs : List Reply) : ∀ (left : Nat) (e c : Bool),
    (readLoop count rs left ⟨e, c, true, false⟩).state.m_Eof = e ∧
    (readLoop count rs left ⟨e, c, true, false⟩).state.socketClosed = c ∧
    (readLoop count rs left ⟨e, c, true, false⟩).trace.count .SocketClose = 0 := by
  induction rs with
  | nil =>
    intro left e c
    by_cases h0 : left > 0 <;> simp [readLoop, h0]
  | cons r rs ih =>
    intro left e c
    simp only [readLoop, acquire_ssl, release_ssl]
    split_ifs <;> simp [ih, Close_owned, Run.thenReturn]

theorem writeLoop_keeps (count : Nat) (rs : List Reply) : ∀ (left : Nat) (e c : Bool),
    (writeLoop count rs left ⟨e, c, true, false⟩).state.m_Eof = e ∧
    (writeLoop count rs left ⟨e, c, true, false⟩).state.socketClosed = c ∧
    (writeLoop count rs left ⟨e, c, true, false⟩).trace.count .SocketClose = 0 := by
  induction rs with
  | nil =>
    intro left e c
    by_cases h0 : left > 0 <;> simp [writeLoop, h0]
  | cons r rs ih =>
    intro left e c
    simp only [writeLoop, acquire_ssl, release_ssl]
    split_ifs <;> simp [ih, Close_owned, Run.thenReturn]

theorem leave_keeps {α : Type} (r : Run α) (evs : List Event) (e c : Bool)
    (hev : evs.count .SocketClose = 0)
    (h : r.state.m_Eof = e ∧ r.state.socketClosed = c ∧ r.trace.count .SocketClose = 0) :
    ((r.after evs).leave .m_IOActionLock).state.m_Eof = e ∧
    ((r.after evs).leave .m_IOActionLock).state.socketClosed = c ∧
    ((r.after evs).leave .m_IOActionLock).trace.count .SocketClose = 0 := by
  obtain ⟨h1, h2, h3⟩ := h
  unfold Run.leave
  cases ho : r.outcome <;> simp [Run.after, ho, State.release, h1, h2, h3, hev]

/-- C7 (evidence of the defect): when the first reply is a clean shutdown,
`Handshake`, `Read` and `Write` call `Close` while they hold the operation
lock; the thread is stuck in the `scoped_lock` constructor of `Close`, still
owning the lock, with `m_Eof` and the socket unchanged and no `Socket::Close`
made.  Indeed no run of `Handshake`, `Read` or `Write`, whatever the replies,
changes `m_Eof` or calls `Socket::Close`. -/
theorem clean_shutdown_blocks_on_operation_lock (rs : List Reply) (peek n count : Nat)
    (pollThrows firstPollThrows eof closed : Bool) :
    Handshake (⟨0, SSL_ERROR_ZERO_RETURN, peek, pollThrows⟩ :: rs) ⟨eof, closed, false, false⟩
      = ⟨⟨eof, closed, true, false⟩,
         [.lock .m_IOActionLock, .lock .m_SSLLock, .SSL_do_handshake, .SSL_get_error,
          .unlock .m_SSLLock],
         .blocked .m_IOActionLock⟩ ∧
    Read (⟨0, SSL_ERROR_ZERO_RETURN, peek, pollThrows⟩ :: rs) false (n + 1)
        ⟨eof, closed, false, false⟩
      = ⟨⟨eof, closed, true, false⟩,
         [.Poll true false false, .lock .m_IOActionLock, .lock .m_SSLLock,
          .SSL_read 0 (toInt (n + 1)), .SSL_get_error, .unlock .m_SSLLock],
         .blocked .m_IOActionLock⟩ ∧
    Write (⟨0, SSL_ERROR_ZERO_RETURN, peek, pollThrows⟩ :: rs) false (n + 1)
        ⟨eof, closed, false, false⟩
      = ⟨⟨eof, closed, true, false⟩,
         [.Poll false true false, .lock .m_IOActionLock, .lock .m_SSLLock,
          .SSL_write 0 (toInt (n + 1)), .SSL_get_error, .unlock .m_SSLLock],
         .blocked .m_IOActionLock⟩ ∧
    ((Handshake rs ⟨eof, closed, false, false⟩).state.m_Eof = eof ∧
      (Handshake rs ⟨eof, closed, false, false⟩).state.socketClosed = closed ∧
      (Handshake rs ⟨eof, closed, false, false⟩).trace.count .SocketClose = 0) ∧
    ((Read rs firstPollThrows count ⟨eof, closed, false, false⟩).state.m_Eof = eof ∧
      (Read rs firstPollThrows count ⟨eof, closed, false, false⟩).state.socketClosed = closed ∧
      (Read rs firstPollThrows count ⟨eof, closed, false, false⟩).trace.count .SocketClose
        = 0) ∧
    ((Write rs firstPollThrows count ⟨eof, closed, false, false⟩).state.m_Eof = eof ∧
      (Write rs firstPollThrows count ⟨eof, closed, false, false⟩).state.socketClosed = closed ∧
      (Write rs firstPollThrows count ⟨eof, closed, false, false⟩).trace.count .SocketClose
        = 0) := by
  refine ⟨?_, ?_, ?_, ?_, ?_, ?_⟩
  · simp [Handshake, handshakeLoop, Close_owned, Run.thenReturn, Run.after, Run.leave]
  · simp [Read, readLoop, Close_owned, Run.thenReturn, Run.after, Run.leave, subSize_self]
  · simp [Write, writeLoop, Close_owned, Run.thenReturn, Run.after, Run.leave, subSize_self]
  · rw [Handshake_unlocked]
    exact leave_keeps _ _ eof closed (by decide) (handshakeLoop_keeps rs eof closed)
  · cases firstPollThrows with
    | true => simp [Read]
    | false =>
      rw [Read_unlocked]
      exact leave_keeps _ _ eof closed (by decide) (readLoop_keeps count rs count eof closed)
  · cases firstPollThrows with
    | true => simp [Write]
    | false =>
      rw [Write_unlocked]
      exact leave_keeps _ _ eof closed (by decide) (writeLoop_keeps count rs count eof closed)

/-- C8 (as stated) fails: the `Read` that observes the clean shutdown does not
return and does not set `m_Eof`, and leaves the operation lock owned; a
subsequent `Read` on the stream as that `Read` left it, of 0 bytes or of 1
byte, calls `Poll(true, false)` as its first action, before it asks for the
operation lock. -/
theorem Read_after_clean_shutdown_polls_again :
    Read [⟨0, 6, 0, false⟩] false 1 ⟨false, false, false, false⟩
      = ⟨⟨false, false, true, false⟩,
         [.Poll true false false, .lock .m_IOActionLock, .lock .m_SSLLock, .SSL_read 0 1,
          .SSL_get_error, .unlock .m_SSLLock],
         .blocked .m_IOActionLock⟩ ∧
    (Read [] false 0
        (Read [⟨0, 6, 0, false⟩] false 1 ⟨false, false, false, false⟩).state).trace
      = [.Poll true false false] ∧
    (Read [⟨0, 6, 0, false⟩] false 1
        (Read [⟨0, 6, 0, false⟩] false 1 ⟨false, false, false, false⟩).state).trace
      = [.Poll true false false] := by
  decide

/-- C8 (amended): every `Read`, whatever the state of the stream and so also
after a clean shutdown has been observed or `m_Eof` has been set, begins by
calling `Poll(true, false)`, before it asks for the operation lock and without
testing `m_Eof`; when that call returns and no lock is owned, a `Read` of a
positive `count` takes the two locks and calls `SSL_read` at offset 0,
whatever `m_Eof` is; and when no reply is a clean shutdown, a normal return
gives `count`, hence 0 only when `count` is 0.  How the `Read` that observes
the clean shutdown ends, whether a `Read` after it returns, and what a failure
of the first `Poll` does are not stated. -/
theorem Read_polls_first_whatever_eof (rs : List Reply) (firstPollThrows : Bool)
    (count : Nat) (eof closed : Bool) (s : State) :
    (Read rs firstPollThrows count s).trace.head?
      = some (.Poll true false firstPollThrows) ∧
    (0 < count →
      ∃ tail, (Read rs false count ⟨eof, closed, false, false⟩).trace
        = .Poll true false false :: .lock .m_IOActionLock :: .lock .m_SSLLock
            :: .SSL_read 0 (toInt count) :: tail) ∧
    ((∀ x ∈ rs, isCleanShutdown x = false) →
      ∀ v, (Read rs false count ⟨eof, closed, false, false⟩).outcome = .returned v →
        v = count) := by
  refine ⟨?_, ?_, ?_⟩
  · cases firstPollThrows with
    | true => simp [Read]
    | false =>
      simp only [Read, Bool.false_eq_true, if_false]
      cases s.acquire .m_IOActionLock with
      | none => simp
      | some s1 =>
        obtain ⟨fin, hfin, -⟩ := Run.leave_trace
          ((readLoop count rs count s1).after
            [.Poll true false false, .lock .m_IOActionLock]) .m_IOActionLock
        simp only [hfin]
        simp
  · intro hpos
    rw [Read_unlocked]
    obtain ⟨fin, hfin, -⟩ := Run.leave_trace
      ((readLoop count rs count ⟨eof, closed, true, false⟩).after
        [.Poll true false false, .lock .m_IOActionLock]) .m_IOActionLock
    obtain ⟨tail, ht⟩ := readLoop_first_call count hpos rs eof closed
    exact ⟨tail ++ fin, by rw [hfin, Run.after_trace, ht]; simp⟩
  · intro _ v hv
    rw [Read_unlocked] at hv
    exact readLoop_returned_count count rs count eof closed v (by simpa using hv)

/-! ## Constructor (C10) -/

theorem constructAll_index (cs : List (ConnectionRole × NewReply)) : ∀ g : Globals,
    (constructAll cs g).2.count .SSL_get_ex_new_index
      = if g.m_SSLIndexInitialized = false ∧ ∃ c ∈ cs, c.2.session ≠ none then 1 else 0 := by
  induction cs with
  | nil => intro g; simp [constructAll]
  | cons c cs ih =>
    intro g
    obtain ⟨role, env⟩ := c
    obtain ⟨session, index, peek⟩ := env
    obtain ⟨idx, init⟩ := g
    simp only [constructAll, List.count_append, ih]
    cases session with
    | none =>
      have hex : (∃ c ∈ (role, (⟨none, index, peek⟩ : NewReply)) :: cs, c.2.session ≠ none)
          ↔ ∃ c ∈ cs, c.2.session ≠ none := by
        simp
      simp only [TlsStream, hex]
      simp
    | some ssl =>
      have hex : (∃ c ∈ (role, (⟨some ssl, index, peek⟩ : NewReply)) :: cs, c.2.session ≠ none) := by
        simp
      cases init <;> cases role <;> simp [TlsStream, hex]

/-- C10: the constructor raises exactly when `SSL_new` returns null, and then
raises the `openssl_error` for `SSL_new` having left the static members
unchanged and without calling `MakeNonBlocking`, `SSL_set_fd` or
`SSL_get_ex_new_index`; when `SSL_new` returns a session, the constructor
returns with `m_Eof` false and that session in `m_SSL`, and its last call is
`SSL_set_accept_state` for `RoleServer` and `SSL_set_connect_state` otherwise;
and over any sequence of constructions from program start
`SSL_get_ex_new_index` is called at most once, and exactly once as soon as one
construction in the sequence has succeeded. -/
theorem construction_fails_iff_no_session_and_index_allocated_once
    (role : ConnectionRole) (env : NewReply) (g : Globals)
    (cs : List (ConnectionRole × NewReply)) :
    ((∃ err, (TlsStream role env g).result = .raised err) ↔ env.session = none) ∧
    (env.session = none →
      (TlsStream role env g).result = .raised (.openssl_error .SSL_new env.peek) ∧
      (TlsStream role env g).globals = g ∧
      Event.MakeNonBlocking ∉ (TlsStream role env g).trace ∧
      Event.SSL_set_fd ∉ (TlsStream role env g).trace ∧
      Event.SSL_get_ex_new_index ∉ (TlsStream role env g).trace) ∧
    (∀ ssl, env.session = some ssl →
      (TlsStream role env g).result = .returned ⟨false, role, some ssl⟩ ∧
      (TlsStream role env g).globals.m_SSLIndexInitialized = true ∧
      (TlsStream role env g).trace.getLast?
        = some (if role = .RoleServer then .SSL_set_accept_state
                else .SSL_set_connect_state)) ∧
    (constructAll cs Globals.initial).2.count .SSL_get_ex_new_index ≤ 1 ∧
    ((constructAll cs Globals.initial).2.count .SSL_get_ex_new_index = 1 ↔
      ∃ c ∈ cs, c.2.session ≠ none) := by
  refine ⟨?_, ?_, ?_, ?_, ?_⟩
  · cases hs : env.session <;> simp [TlsStream, hs]
  · intro hs
    simp [TlsStream, hs]
  · intro ssl hs
    cases hg : g.m_SSLIndexInitialized <;> simp [TlsStream, hs, hg, List.getLast?_cons_cons]
  · rw [constructAll_index]
    split_ifs <;> simp
  · rw [constructAll_index]
    simp [Globals.initial]

/-! ## Failures of `Socket::Poll` (C5) -/

@[simp] theorem Reply.withPoll_rc (r : Reply) (b : Bool) : (r.withPoll b).rc = r.rc := rfl

@[simp] theorem Reply.withPoll_err (r : Reply) (b : Bool) : (r.withPoll b).err = r.err := rfl

@[simp] theorem Reply.withPoll_peek (r : Reply) (b : Bool) : (r.withPoll b).peek = r.peek := rfl

theorem closeLoop_poll (f : Reply → Bool) (rs : List Reply) : ∀ (i : Nat) (e c held : Bool),
    (closeLoop (rs.map (fun r => r.withPoll (f r))) i ⟨e, c, held, false⟩).outcome
        = (closeLoop rs i ⟨e, c, held, false⟩).outcome ∧
    (closeLoop (rs.map (fun r => r.withPoll (f r))) i ⟨e, c, held, false⟩).state
        = (closeLoop rs i ⟨e, c, held, false⟩).state := by
  induction rs with
  | nil => intro i e c held; simp
  | cons r rs ih =>
    intro i e c held
    have := ih (i + 1) e c held
    simp only [List.map_cons, closeLoop, acquire_ssl, release_ssl, Reply.withPoll_rc,
      Reply.withPoll_err, Reply.withPoll_peek]
    split_ifs <;> simp [this]

theorem handshakeLoop_poll (f : Reply → Bool) (rs : List Reply) (e c : Bool) :
    (handshakeLoop (rs.map (fun r => r.withPoll (f r))) ⟨e, c, true, false⟩).outcome
        = (handshakeLoop rs ⟨e, c, true, false⟩).outcome ∧
    (handshakeLoop (rs.map (fun r => r.withPoll (f r))) ⟨e, c, true, false⟩).state
        = (handshakeLoop rs ⟨e, c, true, false⟩).state := by
  induction rs with
  | nil => simp
  | cons r rs ih =>
    simp only [List.map_cons, handshakeLoop, acquire_ssl, release_ssl, Reply.withPoll_rc,
      Reply.withPoll_err, Reply.withPoll_peek]
    split_ifs <;> simp [ih, Close_owned, Run.thenReturn]

theorem readLoop_poll (f : Reply → Bool) (count : Nat) (rs : List Reply) :
    ∀ (left : Nat) (e c : Bool),
    (readLoop count (rs.map (fun r => r.withPoll (f r))) left ⟨e, c, true, false⟩).outcome
        = (readLoop count rs left ⟨e, c, true, false⟩).outcome ∧
    (readLoop count (rs.map (fun r => r.withPoll (f r))) left ⟨e, c, true, false⟩).state
        = (readLoop count rs left ⟨e, c, true, false⟩).state := by
  induction rs with
  | nil => intro left e c; simp
  | cons r rs ih =>
    intro left e c
    simp only [List.map_cons, readLoop, acquire_ssl, release_ssl, Reply.withPoll_rc,
      Reply.withPoll_err, Reply.withPoll_peek]
    split_ifs <;> simp [ih, Close_owned, Run.thenReturn]

theorem writeLoop_poll (f : Reply → Bool) (count : Nat) (rs : List Reply) :
    ∀ (left : Nat) (e c : Bool),
    (writeLoop count (rs.map (fun r => r.withPoll (f r))) left ⟨e, c, true, false⟩).outcome
        = (writeLoop count rs left ⟨e, c, true, false⟩).outcome ∧
    (writeLoop count (rs.map (fun r => r.withPoll (f r))) left ⟨e, c, true, false⟩).state
        = (writeLoop count rs left ⟨e, c, true, false⟩).state := by
  induction rs with
  | nil => intro left e c; simp
  | cons r rs ih =>
    intro left e c
    simp only [List.map_cons, writeLoop, acquire_ssl, release_ssl, Reply.withPoll_rc,
      Reply.withPoll_err, Reply.withPoll_peek]
    split_ifs <;> simp [ih, Close_owned, Run.thenReturn]

theorem leave_outcome_state {α : Type} (r r2 : Run α) (evs : List Event)
    (ho : r.outcome = r2.outcome) (hs : r.state = r2.state) :
    ((r.after evs).leave .m_IOActionLock).outcome = ((r2.after evs).leave .m_IOActionLock).outcome ∧
    ((r.after evs).leave .m_IOActionLock).state = ((r2.after evs).leave .m_IOActionLock).state := by
  unfold Run.leave
  simp only [Run.after_outcome, Run.after_state, ← ho, ← hs]
  cases h : r.outcome <;> simp [h] <;> exact ⟨h ▸ ho, hs⟩

theorem loop_poll_outcome (f : Reply → Bool) (rs : List Reply) (count : Nat)
    (e c : Bool) :
    ((Handshake (rs.map (fun r => r.withPoll (f r))) ⟨e, c, false, false⟩).outcome
        = (Handshake rs ⟨e, c, false, false⟩).outcome ∧
      (Handshake (rs.map (fun r => r.withPoll (f r))) ⟨e, c, false, false⟩).state
        = (Handshake rs ⟨e, c, false, false⟩).state) ∧
    ((Read (rs.map (fun r => r.withPoll (f r))) false count ⟨e, c, false, false⟩).outcome
        = (Read rs false count ⟨e, c, false, false⟩).outcome ∧
      (Read (rs.map (fun r => r.withPoll (f r))) false count ⟨e, c, false, false⟩).state
        = (Read rs false count ⟨e, c, false, false⟩).state) ∧
    ((Write (rs.map (fun r => r.withPoll (f r))) false count ⟨e, c, false, false⟩).outcome
        = (Write rs false count ⟨e, c, false, false⟩).outcome ∧
      (Write (rs.map (fun r => r.withPoll (f r))) false count ⟨e, c, false, false⟩).state
        = (Write rs false count ⟨e, c, false, false⟩).state) ∧
    ((Close (rs.map (fun r => r.withPoll (f r))) ⟨e, c, false, false⟩).outcome
        = (Close rs ⟨e, c, false, false⟩).outcome ∧
      (Close (rs.map (fun r => r.withPoll (f r))) ⟨e, c, false, false⟩).state
        = (Close rs ⟨e, c, false, false⟩).state) := by
  refine ⟨?_, ?_, ?_, ?_⟩
  · rw [Handshake_unlocked, Handshake_unlocked]
    exact leave_outcome_state _ _ _ (handshakeLoop_poll f rs e c).1 (handshakeLoop_poll f rs e c).2
  · rw [Read_unlocked, Read_unlocked]
    exact leave_outcome_state _ _ _ (readLoop_poll f count rs count e c).1
      (readLoop_poll f count rs count e c).2
  · rw [Write_unlocked, Write_unlocked]
    exact leave_outcome_state _ _ _ (writeLoop_poll f count rs count e c).1
      (writeLoop_poll f count rs count e c).2
  · obtain ⟨ho, hs⟩ := closeLoop_poll f rs 0 true c true
    simp only [Close, acquire_operation_lock, ho, hs]
    cases h : (closeLoop rs 0 ⟨true, c, true, false⟩).outcome <;> simp [Run.leave, h, ho, hs]

/-- C5 (evidence of the defect): when the `Poll` made at the start of `Read`
or `Write`, before the operation lock is taken and outside any `try` block,
throws, the operation makes no other call and the exception reaches the
caller; whereas the `Poll` calls inside the loops of `Handshake`, `Read`,
`Write` and `Close` never change the outcome or the final state of the
operation, whichever of them throw. -/
theorem first_Poll_failure_is_surfaced (f : Reply → Bool) (rs : List Reply) (count : Nat)
    (e c : Bool) (s : State) :
    (Read rs true count s = ⟨s, [.Poll true false true], .raised .poll_error⟩ ∧
      Write rs true count s = ⟨s, [.Poll false true true], .raised .poll_error⟩) ∧
    ((Handshake (rs.map (fun r => r.withPoll (f r))) ⟨e, c, false, false⟩).outcome
        = (Handshake rs ⟨e, c, false, false⟩).outcome ∧
      (Handshake (rs.map (fun r => r.withPoll (f r))) ⟨e, c, false, false⟩).state
        = (Handshake rs ⟨e, c, false, false⟩).state) ∧
    ((Read (rs.map (fun r => r.withPoll (f r))) false count ⟨e, c, false, false⟩).outcome
        = (Read rs false count ⟨e, c, false, false⟩).outcome ∧
      (Read (rs.map (fun r => r.withPoll (f r))) false count ⟨e, c, false, false⟩).state
        = (Read rs false count ⟨e, c, false, false⟩).state) ∧
    ((Write (rs.map (fun r => r.withPoll (f r))) false count ⟨e, c, false, false⟩).outcome
        = (Write rs false count ⟨e, c, false, false⟩).outcome ∧
      (Write (rs.map (fun r => r.withPoll (f r))) false count ⟨e, c, false, false⟩).state
        = (Write rs false count ⟨e, c, false, false⟩).state) ∧
    ((Close (rs.map (fun r => r.withPoll (f r))) ⟨e, c, false, false⟩).outcome
        = (Close rs ⟨e, c, false, false⟩).outcome ∧
      (Close (rs.map (fun r => r.withPoll (f r))) ⟨e, c, false, false⟩).state
        = (Close rs ⟨e, c, false, false⟩).state) :=
  ⟨by simp [Read, Write], loop_poll_outcome f rs count e c⟩

end TlsStream
